import Mathlib

/-!
# MOS 6530 MIOT / 6532 RIOT: port, timer, edge detector and interrupt logic

Source: `src/devices/machine/mos6530n.h` declares the class `mos6530_device_base`
with its state fields and member functions.  The bodies of the member functions
other than `rom_r`, `ram_r`, `ram_w`, `pa_ddr_r`, `pb_ddr_r` and the sixteen
line entry points `pa0_w .. pb7_w` are not part of the sources at hand; they are
modelled from the specification, each such definition saying so.

Time is counted in chip clock ticks.  A byte is a natural number below 256.

The handlers of the drivers `src/mame/commodore/kim1.cpp` (namespace `Kim1`) and
`src/mame/commodore/chessmate.cpp` (namespace `Chessmate`) are translated from
their code; what they read from input ports is a parameter and what they send to
other devices is returned.
-/

namespace Mos6530

/-! ## Data model -/

/-- The two chips: `mos6530_new_device` (MIOT) and `mos6532_new_device` (RIOT). -/
inductive Variant where
  | MIOT
  | RIOT
  deriving DecidableEq, Repr

/-- Bit of the combined flag register for the edge detector (`enum { IRQ_EDGE = 0x40 }`). -/
def IRQ_EDGE : Nat := 0x40

/-- Bit of the combined flag register for the timer (`enum { IRQ_TIMER = 0x80 }`). -/
def IRQ_TIMER : Nat := 0x80

/-- The timer states, `enum { TIMER_COUNTING, TIMER_SPINNING }`. -/
inductive TimerState where
  | TIMER_COUNTING
  | TIMER_SPINNING
  deriving DecidableEq, Repr

open TimerState

/-- The fields of `mos6530_device_base`, with the host's tick reference `now`
(`machine().time()` in clock ticks), the due tick of the one-shot `m_timer`
(`none` when nothing is scheduled) and the level last driven on the interrupt
output `m_irq_cb`.  `m_pa7_dir` is `true` for RISING and `false` for FALLING. -/
structure State where
  variant : Variant
  m_ram : List Nat
  m_rom : List Nat
  m_pa_in : Nat
  m_pa_out : Nat
  m_pa_ddr : Nat
  m_pa7 : Bool
  m_pa7_dir : Bool
  m_pb_in : Nat
  m_pb_out : Nat
  m_pb_ddr : Nat
  m_ie_timer : Bool
  m_irq_timer : Bool
  m_ie_edge : Bool
  m_irq_edge : Bool
  m_timershift : Nat
  m_timerstate : TimerState
  m_timer : Option Nat
  m_timeout : Nat
  now : Nat
  irq : Bool

/-- What the input handlers the host registered on one port return when they are
sampled: `in8` for the byte-wide handler (`m_in8_pa_cb`), `line i` for the
handler of line `i` (`m_in_pa_cb[i]`); `none` where no handler is registered. -/
structure PortIn where
  in8 : Option Nat
  line : Nat → Option Bool

/-- No input handler registered on the port. -/
def PortIn.unset : PortIn := { in8 := none, line := fun _ => none }

/-! ## Bit helpers -/

/-- The byte whose bit `i` (for `i < n`) is `f i`. -/
def ofBits (f : Nat → Bool) : Nat → Nat
  | 0 => 0
  | n + 1 => ofBits f n ||| ((f n).toNat <<< n)

/-- The value `x` with bit `bit` replaced by `level`. -/
def setLine (x bit : Nat) (level : Bool) : Nat :=
  ofBits (fun i => if i = bit then level else x.testBit i) 8

/-! ## InterruptAggregator -/

/-- Whether the variant has the edge detector among its interrupt sources. -/
def supports_edge : Variant → Bool
  | Variant.MIOT => false
  | Variant.RIOT => true

/-- The level the aggregator computes from the latched flags and their enables. -/
def irq_level (s : State) : Bool :=
  (s.m_irq_timer && s.m_ie_timer) || (supports_edge s.variant && (s.m_irq_edge && s.m_ie_edge))

/-- Modelled from the spec: the body of `update_irq` is missing.  Spec 4.4
`recompute`: ORs the enabled, latched flags of the timer and (if the variant
supports it) the edge detector and drives the interrupt line accordingly. -/
def update_irq (s : State) : State :=
  { s with irq := irq_level s }

/-- Modelled from the spec: the body of `get_irq_flags` is missing.  Spec 4.2: the
timer contributes bit TIMER = 0x80; for the base/RIOT class the edge bit 0x40 is
combined with it. -/
def get_irq_flags (s : State) : Nat :=
  (if s.m_irq_timer then IRQ_TIMER else 0) |||
    (if supports_edge s.variant && s.m_irq_edge then IRQ_EDGE else 0)

/-! ## EdgeDetector -/

/-- Modelled from the spec: the body of `edge_detect` is missing.  Spec 4.3
`observe(new_level)`: compares against the last observed level of Port A bit 7;
if the transition matches the enabled polarity, sets the flag; always updates the
stored last level.  The aggregator is recomputed afterwards (spec 4.4). -/
def edge_detect (new_level : Bool) (s : State) : State :=
  let flag := s.m_irq_edge || (s.m_pa7 != new_level && new_level == s.m_pa7_dir)
  update_irq { s with m_irq_edge := flag, m_pa7 := new_level }

/-- Modelled from the spec: the body of `edge_w` is missing.  Spec 3 and 4.3
`configure(polarity)`: the polarity is selected by which edge-control register
variant is addressed and the flag is neither set nor cleared; spec 4.4 names an
enable-register write after which the aggregator is recomputed.  The address bits
are not in the spec: the model takes bit 0 of the offset for the polarity and
bit 1 for the edge interrupt enable. -/
def edge_w (offset : Nat) (_data : Nat) (s : State) : State :=
  update_irq { s with m_pa7_dir := offset.testBit 0, m_ie_edge := offset.testBit 1 }

/-! ## PortUnit -/

/-- The level sampled for input line `i`: the registered handler's value, else
the input level last set on the line (spec 4.1 `read_data`, spec 3 `input_level`). -/
def sample_bit (cb : PortIn) (input_level : Nat) (i : Nat) : Bool :=
  match cb.in8 with
  | some b => b.testBit i
  | none =>
    match cb.line i with
    | some l => l
    | none => input_level.testBit i

/-- Modelled from the spec: spec 3, PortUnit invariant: a read of the port
returns, per bit, `ddr[i] ? output_latch[i] : input_level[i]`. -/
def port_read (cb : PortIn) (out ddr input_level : Nat) : Nat :=
  ofBits (fun i => if ddr.testBit i then out.testBit i else sample_bit cb input_level i) 8

/-- Modelled from the spec: `input_level` is refreshed on read for the input bits. -/
def port_refresh (cb : PortIn) (ddr input_level : Nat) : Nat :=
  ofBits (fun i => if ddr.testBit i then input_level.testBit i else sample_bit cb input_level i) 8

/-- Modelled from the spec: the body of `pa_data_r` is missing.  Spec 4.1
`read_data`: output bits return the latch, input bits sample the handler; for
Port A the resulting bit 7 is forwarded to the edge detector on every read. -/
def pa_data_r (cb : PortIn) (s : State) : Nat × State :=
  let data := port_read cb s.m_pa_out s.m_pa_ddr s.m_pa_in
  (data, edge_detect (data.testBit 7) { s with m_pa_in := port_refresh cb s.m_pa_ddr s.m_pa_in })

/-- Modelled from the spec: the body of `pb_data_r` is missing.  Spec 4.1 `read_data`. -/
def pb_data_r (cb : PortIn) (s : State) : Nat × State :=
  (port_read cb s.m_pb_out s.m_pb_ddr s.m_pb_in,
    { s with m_pb_in := port_refresh cb s.m_pb_ddr s.m_pb_in })

/-- Modelled from the spec: the body of `pa_data_w` is missing.  Spec 4.1
`write_data`: sets the output latch (the propagation to the host's output
handlers leaves the chip state as it is). -/
def pa_data_w (data : Nat) (s : State) : State :=
  { s with m_pa_out := data }

/-- Modelled from the spec: the body of `pb_data_w` is missing.  Spec 4.1 `write_data`. -/
def pb_data_w (data : Nat) (s : State) : State :=
  { s with m_pb_out := data }

/-- From the header: `uint8_t pa_ddr_r() { return m_pa_ddr; }`. -/
def pa_ddr_r (s : State) : Nat := s.m_pa_ddr

/-- From the header: `uint8_t pb_ddr_r() { return m_pb_ddr; }`. -/
def pb_ddr_r (s : State) : Nat := s.m_pb_ddr

/-- Modelled from the spec: the body of `pa_ddr_w` is missing.  Spec 4.1
`write_ddr`: sets the direction register. -/
def pa_ddr_w (data : Nat) (s : State) : State :=
  { s with m_pa_ddr := data }

/-- Modelled from the spec: the body of `pb_ddr_w` is missing.  Spec 4.1 `write_ddr`. -/
def pb_ddr_w (data : Nat) (s : State) : State :=
  { s with m_pb_ddr := data }

/-- Modelled from the spec: the body of `pa_w` is missing.  Spec 4.1
`set_input_line(bit, level)`: updates `input_level[bit]`; if the bit is Port A
bit 7, triggers the edge comparison regardless of the DDR. -/
def pa_w (bit : Nat) (state : Bool) (s : State) : State :=
  let s1 := { s with m_pa_in := setLine s.m_pa_in bit state }
  if bit = 7 then edge_detect state s1 else s1

/-- Modelled from the spec: the body of `pb_w` is missing.  Spec 4.1 `set_input_line`. -/
def pb_w (bit : Nat) (state : Bool) (s : State) : State :=
  { s with m_pb_in := setLine s.m_pb_in bit state }

/-- The external level of a port is the byte `i`: every line, sampled through the
registered handler or else taken from the level last set on the line, is at
bit `i` of it. -/
def port_level (cb : PortIn) (input_level i : Nat) : Prop :=
  ∀ k, k < 8 → sample_bit cb input_level k = i.testBit k

instance (cb : PortIn) (input_level i : Nat) : Decidable (port_level cb input_level i) := by
  unfold port_level
  infer_instance

/-! ## On-chip memory -/

/-- From the header: `uint8_t rom_r(offs_t offset) { return m_rom[offset]; }`. -/
def rom_r (offset : Nat) (s : State) : Nat := s.m_rom.getD offset 0

/-- From the header: `uint8_t ram_r(offs_t offset) { return m_ram[offset]; }`. -/
def ram_r (offset : Nat) (s : State) : Nat := s.m_ram.getD offset 0

/-- From the header: `void ram_w(offs_t offset, uint8_t data) { m_ram[offset] = data; }`. -/
def ram_w (offset : Nat) (data : Nat) (s : State) : State :=
  { s with m_ram := s.m_ram.set offset data }

/-! ## TimerUnit -/

/-- Modelled from the spec: the prescale table of `timer_w` is missing.  Spec 4.2
`load`: the 2-bit selector gives the divisor, 00 → 1, 01 → 8, 10 → 64, 11 → 1024,
that is the shifts 0, 3, 6, 10. -/
def prescale_shift (offset : Nat) : Nat :=
  match offset % 4 with
  | 0 => 0
  | 1 => 3
  | 2 => 6
  | _ => 10

/-- Modelled from the spec: the body of `timer_irq_enable` is missing.  Sets
`irq_enabled` and recomputes the aggregator (spec 4.4, enable-register write). -/
def timer_irq_enable (ie : Bool) (s : State) : State :=
  update_irq { s with m_ie_timer := ie }

/-- Modelled from the spec: the body of `timer_w` is missing.  Spec 4.2 `load`:
sets the prescale shift from the selector, sets `irq_enabled`, clears `irq_flag`,
stores the value as the starting count, goes to COUNTING and records the time
reference; spec 3 and 9: the count is kept as the expiry tick, and the one-shot
is scheduled for that tick, which replaces a pending one (spec 5). -/
def timer_w (offset : Nat) (data : Nat) (ie : Bool) (s : State) : State :=
  let shift := prescale_shift offset
  let expiry := s.now + (data <<< shift)
  timer_irq_enable ie
    { s with m_timershift := shift, m_timerstate := TIMER_COUNTING, m_irq_timer := false,
             m_timeout := expiry, m_timer := some expiry }

/-- Modelled from the spec: the body of `get_timer` is missing.  Spec 4.2 `read`:
while COUNTING the value less the elapsed prescaled ticks, not below 0 and
truncated to 8 bits, which on the stored expiry tick is the remaining ticks
divided by the prescale, rounded up; while SPINNING a byte that goes down by 1
every tick, the remaining count past zero truncated to 8 bits. -/
def get_timer (s : State) : Nat :=
  match s.m_timerstate with
  | TIMER_COUNTING =>
    (((s.m_timeout - s.now) + (2 ^ s.m_timershift - 1)) / 2 ^ s.m_timershift) % 256
  | TIMER_SPINNING => (256 - (s.now - s.m_timeout) % 256) % 256

/-- Modelled from the spec: the body of `timer_r` is missing.  Spec 4.2 `read`
returns the timer byte; the spec gives the read no effect on `irq_enabled`
(set by the register variant last written) or on the flag, so `ie` is not used. -/
def timer_r (_ie : Bool) (s : State) : Nat × State :=
  (get_timer s, s)

/-- Modelled from the spec: the body of `timer_off_r` is missing; `timer_r(false)`. -/
def timer_off_r (s : State) : Nat × State := timer_r false s

/-- Modelled from the spec: the body of `timer_on_r` is missing; `timer_r(true)`. -/
def timer_on_r (s : State) : Nat × State := timer_r true s

/-- Modelled from the spec: the body of `timer_off_w` is missing; a load without interrupt. -/
def timer_off_w (offset data : Nat) (s : State) : State := timer_w offset data false s

/-- Modelled from the spec: the body of `timer_on_w` is missing; a load with interrupt. -/
def timer_on_w (offset data : Nat) (s : State) : State := timer_w offset data true s

/-- Modelled from the spec: the body of `irq_r` is missing.  Spec 4.2 and 4.3: the
read returns the combined flag register and clears the timer flag and the edge
flag; the aggregator is recomputed (spec 4.4). -/
def irq_r (s : State) : Nat × State :=
  (get_irq_flags s, update_irq { s with m_irq_timer := false, m_irq_edge := false })

/-- Modelled from the spec: the body of `timer_end` is missing.  Spec 3: on
reaching zero the timer goes to SPINNING and, if enabled, sets `irq_flag`; the
aggregator is recomputed (spec 4.4).  Nothing is scheduled again: spec 8 has no
further interrupt assertion while spinning. -/
def timer_end (s : State) : State :=
  update_irq { s with m_timerstate := TIMER_SPINNING,
                      m_irq_timer := s.m_irq_timer || s.m_ie_timer }

/-- The host scheduler delivering the one-shot when its tick has come (spec 5). -/
def run_due (s : State) : State :=
  match s.m_timer with
  | some t => if t ≤ s.now then timer_end { s with m_timer := none } else s
  | none => s

/-- One clock tick of the host: the tick reference goes up by one and a one-shot
due at the new tick is delivered. -/
def tick (s : State) : State :=
  run_due { s with now := s.now + 1 }

/-- The state `n` ticks later, no register being accessed meanwhile; a one-shot
due at once is delivered at tick 0. -/
def advance : Nat → State → State
  | 0, s => run_due s
  | n + 1, s => tick (advance n s)

/-! ## Reset and construction -/

/-- Modelled from the spec: the body of `device_reset` is missing.  Spec 3: the
ports are reset to ddr = 0x00 and output latch = 0x00; the timer is cleared to a
defined idle value with no pending interrupt.  The spec does not give the idle
value: the model takes a cleared count with divisor 1, already expired, nothing
scheduled, timer flag and timer enable clear.  The spec gives the edge detector
no reset (its flag persists until the flag register is read, its polarity until
rewritten), so its flag, enable, polarity and last level are left as they are;
the aggregator is recomputed (spec 4.4). -/
def device_reset (s : State) : State :=
  update_irq
    { s with m_pa_out := 0, m_pa_ddr := 0, m_pb_out := 0, m_pb_ddr := 0,
             m_ie_timer := false, m_irq_timer := false,
             m_timershift := 0, m_timerstate := TIMER_SPINNING,
             m_timer := none, m_timeout := s.now }

/-- Modelled from the spec: the body of `device_start` is missing.  Spec 6: the
chip is built from its variant, its RAM size and (MIOT) its ROM contents; input
lines without a handler are at the default level, high (spec 4.1). -/
def device_start (variant : Variant) (rsize : Nat) (rom : List Nat) : State :=
  { variant := variant, m_ram := List.replicate rsize 0, m_rom := rom,
    m_pa_in := 0xff, m_pa_out := 0, m_pa_ddr := 0, m_pa7 := false, m_pa7_dir := false,
    m_pb_in := 0xff, m_pb_out := 0, m_pb_ddr := 0,
    m_ie_timer := false, m_irq_timer := false, m_ie_edge := false, m_irq_edge := false,
    m_timershift := 0, m_timerstate := TIMER_SPINNING, m_timer := none, m_timeout := 0,
    now := 0, irq := false }

/-! ## The chip interface as a transition system -/

/-- The operations of the chip interface: reset, the register accesses of the
three windows, the input-line changes and the clock tick. -/
inductive Op where
  | reset
  | rom_r (offset : Nat)
  | ram_r (offset : Nat)
  | ram_w (offset data : Nat)
  | pa_data_r (cb : PortIn)
  | pa_data_w (data : Nat)
  | pb_data_r (cb : PortIn)
  | pb_data_w (data : Nat)
  | pa_ddr_r
  | pa_ddr_w (data : Nat)
  | pb_ddr_r
  | pb_ddr_w (data : Nat)
  | timer_off_r
  | timer_on_r
  | irq_r
  | timer_off_w (offset data : Nat)
  | timer_on_w (offset data : Nat)
  | edge_w (offset data : Nat)
  | pa_w (bit : Nat) (state : Bool)
  | pb_w (bit : Nat) (state : Bool)
  | tick

/-- The state after one operation. -/
def step (s : State) : Op → State
  | Op.reset => device_reset s
  | Op.rom_r _ => s
  | Op.ram_r _ => s
  | Op.ram_w offset data => ram_w offset data s
  | Op.pa_data_r cb => (pa_data_r cb s).2
  | Op.pa_data_w data => pa_data_w data s
  | Op.pb_data_r cb => (pb_data_r cb s).2
  | Op.pb_data_w data => pb_data_w data s
  | Op.pa_ddr_r => s
  | Op.pa_ddr_w data => pa_ddr_w data s
  | Op.pb_ddr_r => s
  | Op.pb_ddr_w data => pb_ddr_w data s
  | Op.timer_off_r => (timer_off_r s).2
  | Op.timer_on_r => (timer_on_r s).2
  | Op.irq_r => (irq_r s).2
  | Op.timer_off_w offset data => timer_off_w offset data s
  | Op.timer_on_w offset data => timer_on_w offset data s
  | Op.edge_w offset data => edge_w offset data s
  | Op.pa_w bit state => pa_w bit state s
  | Op.pb_w bit state => pb_w bit state s
  | Op.tick => tick s

/-- The state after a sequence of operations, the first of the list first. -/
def run (s : State) (ops : List Op) : State :=
  ops.foldl step s

/-! ## Invariants -/

/-- The interrupt line agrees with the latched flags and their enables. -/
def irq_consistent (s : State) : Prop :=
  s.irq = irq_level s

/-- The stored prescale shift is one of 0, 3, 6, 10. -/
def shift_valid (s : State) : Prop :=
  s.m_timershift = 0 ∨ s.m_timershift = 3 ∨ s.m_timershift = 6 ∨ s.m_timershift = 10

/-! ## Line entry points -/

/-- From the header: `void pa0_w(int state) { pa_w(0, state); }`. -/
def pa0_w (state : Bool) (s : State) : State := pa_w 0 state s

/-- From the header: `void pa1_w(int state) { pa_w(1, state); }`. -/
def pa1_w (state : Bool) (s : State) : State := pa_w 1 state s

/-- From the header: `void pa2_w(int state) { pa_w(2, state); }`. -/
def pa2_w (state : Bool) (s : State) : State := pa_w 2 state s

/-- From the header: `void pa3_w(int state) { pa_w(3, state); }`. -/
def pa3_w (state : Bool) (s : State) : State := pa_w 3 state s

/-- From the header: `void pa4_w(int state) { pa_w(4, state); }`. -/
def pa4_w (state : Bool) (s : State) : State := pa_w 4 state s

/-- From the header: `void pa5_w(int state) { pa_w(5, state); }`. -/
def pa5_w (state : Bool) (s : State) : State := pa_w 5 state s

/-- From the header: `void pa6_w(int state) { pa_w(6, state); }`. -/
def pa6_w (state : Bool) (s : State) : State := pa_w 6 state s

/-- From the header: `void pa7_w(int state) { pa_w(7, state); }`. -/
def pa7_w (state : Bool) (s : State) : State := pa_w 7 state s

/-- From the header: `void pb0_w(int state) { pb_w(0, state); }`. -/
def pb0_w (state : Bool) (s : State) : State := pb_w 0 state s

/-- From the header: `void pb1_w(int state) { pb_w(1, state); }`. -/
def pb1_w (state : Bool) (s : State) : State := pb_w 1 state s

/-- From the header: `void pb2_w(int state) { pb_w(2, state); }`. -/
def pb2_w (state : Bool) (s : State) : State := pb_w 2 state s

/-- From the header: `void pb3_w(int state) { pb_w(3, state); }`. -/
def pb3_w (state : Bool) (s : State) : State := pb_w 3 state s

/-- From the header: `void pb4_w(int state) { pb_w(4, state); }`. -/
def pb4_w (state : Bool) (s : State) : State := pb_w 4 state s

/-- From the header: `void pb5_w(int state) { pb_w(5, state); }`. -/
def pb5_w (state : Bool) (s : State) : State := pb_w 5 state s

/-- From the header: `void pb6_w(int state) { pb_w(6, state); }`. -/
def pb6_w (state : Bool) (s : State) : State := pb_w 6 state s

/-- From the header: `void pb7_w(int state) { pb_w(7, state); }`. -/
def pb7_w (state : Bool) (s : State) : State := pb_w 7 state s

/-- The sixteen line entry points of the header, port A lines 0..7, then port B. -/
def line_entry_points : List (Bool → State → State) :=
  [pa0_w, pa1_w, pa2_w, pa3_w, pa4_w, pa5_w, pa6_w, pa7_w,
   pb0_w, pb1_w, pb2_w, pb3_w, pb4_w, pb5_w, pb6_w, pb7_w]

/-- A MIOT after reset whose Port A line 7 went high and low again: with the
polarity of construction (FALLING), which the reset leaves, the edge flag is
latched. -/
def miot_edge_latched : State :=
  run (device_reset (device_start Variant.MIOT 64 [])) [Op.pa_w 7 true, Op.pa_w 7 false]

end Mos6530

/-! # KIM-1 driver (`src/mame/commodore/kim1.cpp`) -/

namespace Kim1

/-- The fields of `kim1_state` the handlers use.  `m_sync_state` is an `int`,
`m_cassette_high_count` a `uint32_t`. -/
structure State where
  m_sync_state : Int
  m_k7 : Bool
  m_u2_port_b : Nat
  m_311_output : Nat
  m_cassette_high_count : Nat

/-- What `u2_write_b` sends out: the row mask given to `m_digit_pwm->write_my`
and the level given to `m_cass->output` (`-1` or `1`), `none` when it is not called. -/
structure PortBOut where
  write_my : Nat
  cass_output : Option Int

/-- `kim1_state::machine_reset`. -/
def machine_reset (s : State) : State :=
  { s with m_311_output := 0, m_cassette_high_count := 0 }

/-- `kim1_state::sync_r` with side effects enabled: `m_k7 = bool(~offset & 0x1c00)`
on the 32-bit offset; the byte returned is the program space's, `mem offset`. -/
def sync_r (mem : Nat → Nat) (offset : Nat) (s : State) : Nat × State :=
  (mem offset, { s with m_k7 := decide (((offset ^^^ 0xFFFFFFFF) &&& 0x1c00) ≠ 0) })

/-- `kim1_state::sync_w`; `special` is what `m_special->read()` returns.  The
Boolean is whether `pulse_input_line(INPUT_LINE_NMI, ...)` is called. -/
def sync_w (special : Nat) (state : Int) (s : State) : Bool × State :=
  (decide (s.m_sync_state ≠ 0) && decide (state = 0) && s.m_k7 && special.testBit 2,
    { s with m_sync_state := state })

/-- `kim1_state::u2_read_a`; `row sel` is what `m_row[sel]->read()` returns. -/
def u2_read_a (row : Nat → Nat) (s : State) : Nat :=
  let sel := (s.m_u2_port_b >>> 1) &&& 0x0f
  let data := if sel < 3 then row sel &&& 0x7f else 0x7f
  data ||| 0x80

/-- `kim1_state::u2_read_b`. -/
def u2_read_b (s : State) : Nat :=
  if s.m_u2_port_b &&& 0x20 ≠ 0 then 0xff
  else (0x7f ||| (s.m_311_output ^^^ 0x80)) % 256

/-- `kim1_state::u2_write_b`: `write_my(1 << (data >> 1 & 0xf) >> 4)`, and the
cassette output when bit 5 is set. -/
def u2_write_b (data : Nat) (s : State) : PortBOut × State :=
  ({ write_my := (1 <<< ((data >>> 1) &&& 0xf)) >>> 4,
     cass_output := if data &&& 0x20 ≠ 0 then some (if data &&& 0x80 ≠ 0 then -1 else 1)
                    else none },
    { s with m_u2_port_b := data })

/-- `kim1_state::cassette_input`; `tap_val` is the sample `m_cass->input()`
returns, of which only the sign is used. -/
def cassette_input (tap_val : Int) (s : State) : State :=
  let s1 :=
    if tap_val ≤ 0 then
      if s.m_cassette_high_count ≠ 0 then
        { s with m_311_output := if s.m_cassette_high_count < 8 then 0x80 else 0,
                 m_cassette_high_count := 0 }
      else s
    else s
  if tap_val > 0 then
    { s1 with m_cassette_high_count := (s1.m_cassette_high_count + 1) % 2 ^ 32 }
  else s1

/-- The cassette timer called once per sample, the first of the list first. -/
def cassette_samples (s : State) (samples : List Int) : State :=
  samples.foldl (fun st v => cassette_input v st) s

/-- The state after `machine_reset` with cassette input selected (Port B
output 0, bit 5 clear). -/
def cassette_idle : State :=
  machine_reset { m_sync_state := 0, m_k7 := false, m_u2_port_b := 0,
                  m_311_output := 0, m_cassette_high_count := 0 }

end Kim1

/-! # Chessmate driver (`src/mame/commodore/chessmate.cpp`) -/

namespace Chessmate

/-- The fields of `chmate_state`. -/
structure State where
  m_inp_mux : Nat
  m_7seg_data : Nat
  m_led_data : Nat

/-- What a port write sends out: the DAC bit, the display calls of
`update_display` (`write_row(4, row4)` and `matrix_partial(0, 4, rowsel, rowdata)`)
and the level of the CPU IRQ line (`true` for ASSERT_LINE); `none` where the
handler does not drive it. -/
structure Out where
  dac : Option Nat
  row4 : Nat
  rowsel : Nat
  rowdata : Nat
  irq : Option Bool

/-- `chmate_state::control_w`; `sw` is the port IN.4 (`none` when the machine
has no such port, `read_safe(0)` then giving 0), a 32-bit value. -/
def control_w (sw : Option Nat) (data : Nat) (s : State) : Out × State :=
  let m_inp_mux := data &&& 7
  let dac := (((1 <<< m_inp_mux) >>> 7) &&& 1) &&& ((sw.getD 0) ^^^ 0xFFFFFFFF)
  let m_led_data := (data >>> 3) &&& 7
  ({ dac := some dac, row4 := m_led_data, rowsel := 1 <<< m_inp_mux,
     rowdata := s.m_7seg_data, irq := some (decide (data &&& 0x80 = 0)) },
    { s with m_inp_mux := m_inp_mux, m_led_data := m_led_data })

/-- `chmate_state::digit_w`. -/
def digit_w (data : Nat) (s : State) : Out × State :=
  ({ dac := none, row4 := s.m_led_data, rowsel := 1 <<< s.m_inp_mux, rowdata := data,
     irq := none },
    { s with m_7seg_data := data })

/-- `chmate_state::input_r`; `inputs i` is what port IN.i reads (a 32-bit value),
`none` when the machine has no such port.  IN.i is read through `->read()`,
which needs the port, so the result is `none` when it is missing; IN.(i | 2) is
read through `read_safe(0)`.  The result is the `u8` complement of the `u8`. -/
def input_r (inputs : Nat → Option Nat) (s : State) : Option Nat :=
  if s.m_inp_mux = 4 ∨ s.m_inp_mux = 5 then
    let i := s.m_inp_mux - 4
    match inputs i with
    | some a => some (((a ||| (inputs (i ||| 2)).getD 0) % 256) ^^^ 0xff)
    | none => none
  else some (0 ^^^ 0xff)

end Chessmate

/-! # Power Macintosh 6100 driver (`src/mame/apple/macpdm.cpp`) -/

namespace Macpdm

/-- The fields of `macpdm_state` that the HMC and interrupt handlers use, with
the level last set on the CPU line PPC_IRQ (`true` for ASSERT_LINE) and the
offset last given to `m_video->set_vram_offset`.  `m_hmc_reg` and `m_hmc_buffer`
are `uint64_t`, the other registers `uint8_t`. -/
structure State where
  m_hmc_reg : Nat
  m_hmc_buffer : Nat
  m_hmc_bit : Nat
  m_irq_control : Nat
  m_via2_ier : Nat
  m_via2_ifr : Nat
  m_via2_sier : Nat
  m_via2_sifr : Nat
  m_dma_scsi_a_ctrl : Nat
  m_dma_scsi_a_in_step : Bool
  ppc_irq : Bool
  vram_offset : Nat

/-- A C++ `bool` converted to `int`. -/
def boolInt (b : Bool) : Int := if b then 1 else 0

/-- `macpdm_state::driver_reset`, on the fields of `State`; the CPU line is not
touched there. -/
def driver_reset (s : State) : State :=
  { s with m_hmc_reg := 0, m_hmc_buffer := 0, m_hmc_bit := 0,
           m_via2_ier := 0x00, m_via2_ifr := 0x00, m_via2_sier := 0x00, m_via2_sifr := 0x7f,
           m_irq_control := 0, m_dma_scsi_a_in_step := false, m_dma_scsi_a_ctrl := 0,
           vram_offset := 0 }

/-- `macpdm_state::hmc_r`. -/
def hmc_r (_offset : Nat) (s : State) : Nat :=
  if (s.m_hmc_reg >>> s.m_hmc_bit) &&& 1 ≠ 0 then 0x80 else 0x00

/-- `macpdm_state::hmc_w`.  `u64(1) << m_hmc_bit` is kept to 64 bits and
`m_hmc_bit ++` to 8 bits; `& ~3` on a `uint64_t` clears bits 0 and 1. -/
def hmc_w (offset : Nat) (data : Nat) (s : State) : State :=
  if offset &&& 8 ≠ 0 then { s with m_hmc_bit := 0 }
  else
    let one := (1 <<< s.m_hmc_bit) % 2 ^ 64
    let buffer :=
      if data &&& 0x80 ≠ 0 then s.m_hmc_buffer ||| one
      else s.m_hmc_buffer &&& (one ^^^ (2 ^ 64 - 1))
    let bit := (s.m_hmc_bit + 1) % 256
    if bit = 35 then
      let reg := buffer &&& (3 ^^^ (2 ^ 64 - 1))
      { s with m_hmc_buffer := buffer, m_hmc_bit := bit, m_hmc_reg := reg,
               vram_offset := if reg &&& 0x200000000 ≠ 0 then 0x100000 else 0 }
    else { s with m_hmc_buffer := buffer, m_hmc_bit := bit }

/-- The state after a sequence of `hmc_w(offset, data)` calls, the first of the
list first. -/
def hmc_writes (s : State) (ws : List (Nat × Nat)) : State :=
  ws.foldl (fun st w => hmc_w w.1 w.2 st) s

/-- `macpdm_state::irq_control_r`. -/
def irq_control_r (s : State) : Nat := s.m_irq_control

/-- `macpdm_state::irq_control_w`; `& ~0xc0` on the `uint8_t` keeps bits 0..5. -/
def irq_control_w (data : Nat) (s : State) : State :=
  let s1 :=
    if (s.m_irq_control ^^^ data) &&& 0x40 ≠ 0 then
      { s with m_irq_control := (s.m_irq_control &&& 0x3f) ||| (data &&& 0x40),
               ppc_irq := false }
    else s
  if data &&& 0xc0 = 0xc0 ∧ s1.m_irq_control &&& 0x80 ≠ 0 then
    { s1 with m_irq_control := s1.m_irq_control &&& 0x7f, ppc_irq := false }
  else s1

/-- `macpdm_state::irq_main_set`; `state` is an `int`, compared with a `bool`. -/
def irq_main_set (mask : Nat) (state : Int) (s : State) : State :=
  if boolInt (decide (s.m_irq_control &&& mask ≠ 0)) = state then s
  else
    let c := s.m_irq_control ^^^ mask
    if c &&& 0x40 ≠ 0 then { s with m_irq_control := c ||| 0x80, ppc_irq := true }
    else if c &&& 0x3f ≠ 0 then { s with m_irq_control := c ||| 0x80, ppc_irq := true }
    else { s with m_irq_control := c &&& 0x7f, ppc_irq := false }

/-- `macpdm_state::via2_irq_main_set`. -/
def via2_irq_main_set (mask : Nat) (state : Int) (s : State) : State :=
  if boolInt (decide (s.m_via2_ifr &&& mask ≠ 0)) = state then s
  else
    let s1 := { s with m_via2_ifr := s.m_via2_ifr ^^^ mask }
    irq_main_set 0x02 (boolInt (decide (s1.m_via2_ifr &&& s1.m_via2_ier ≠ 0))) s1

/-- `macpdm_state::via2_irq_slot_set`; `~m_via2_sifr` is taken on the 8 bits. -/
def via2_irq_slot_set (mask : Nat) (state : Int) (s : State) : State :=
  if boolInt (decide (s.m_via2_sifr &&& mask = 0)) = state then s
  else
    let s1 := { s with m_via2_sifr := s.m_via2_sifr ^^^ mask }
    via2_irq_main_set 0x02
      (boolInt (decide ((s1.m_via2_sifr ^^^ 0xff) &&& s1.m_via2_sier ≠ 0))) s1

/-- `macpdm_state::via2_ier_w`; `&= ~data` is taken on the 8 bits. -/
def via2_ier_w (data : Nat) (s : State) : State :=
  let s1 :=
    if data &&& 0x80 ≠ 0 then { s with m_via2_ier := s.m_via2_ier ||| (data &&& 0x3b) }
    else { s with m_via2_ier := s.m_via2_ier &&& (data ^^^ 0xff) }
  irq_main_set 0x02 (boolInt (decide (s1.m_via2_ifr &&& s1.m_via2_ier ≠ 0))) s1

/-- `macpdm_state::via2_sier_w`. -/
def via2_sier_w (data : Nat) (s : State) : State :=
  let s1 :=
    if data &&& 0x80 ≠ 0 then { s with m_via2_sier := s.m_via2_sier ||| (data &&& 0x78) }
    else { s with m_via2_sier := s.m_via2_sier &&& (data ^^^ 0xff) }
  via2_irq_main_set 0x02
    (boolInt (decide ((s1.m_via2_sifr ^^^ 0xff) &&& s1.m_via2_sier ≠ 0))) s1

/-- `macpdm_state::via2_sifr_w`. -/
def via2_sifr_w (data : Nat) (s : State) : State :=
  if data &&& (s.m_via2_sifr ^^^ 0xff) &&& 0x40 ≠ 0 then
    let s1 := { s with m_via2_sifr := s.m_via2_sifr ||| 0x40 }
    via2_irq_main_set 0x02
      (boolInt (decide ((s1.m_via2_sifr ^^^ 0xff) &&& s1.m_via2_sier ≠ 0))) s1
  else s

/-- `macpdm_state::via1_irq`. -/
def via1_irq (state : Int) (s : State) : State := irq_main_set 0x01 state s

/-- `macpdm_state::sound_irq`. -/
def sound_irq (state : Int) (s : State) : State := via2_irq_main_set 0x20 state s

/-- `macpdm_state::vblank_irq`. -/
def vblank_irq (state : Int) (s : State) : State := via2_irq_slot_set 0x40 state s

/-- `macpdm_state::slot2_irq`. -/
def slot2_irq (state : Int) (s : State) : State := via2_irq_slot_set 0x20 state s

/-- `macpdm_state::slot1_irq`. -/
def slot1_irq (state : Int) (s : State) : State := via2_irq_slot_set 0x10 state s

/-- `macpdm_state::scsi_irq`. -/
def scsi_irq (state : Int) (s : State) : State := via2_irq_main_set 0x08 state s

/-- `macpdm_state::fdc_irq`. -/
def fdc_irq (state : Int) (s : State) : State := via2_irq_main_set 0x20 state s

/-- A line change the SCSI controller reports back while the DMA loop accesses
it (`dma_r` / `dma_w`): its DRQ or its IRQ output, with the new line state. -/
inductive ScsiEvent where
  | drq (state : Int)
  | irq (state : Int)

/-- The handler the controller calls for an event while `m_dma_scsi_a_in_step`
is set: `scsi_irq`, or `scsi_drq`, whose DMA start is then guarded off. -/
def scsi_event_in_step (e : ScsiEvent) (s : State) : State :=
  match e with
  | ScsiEvent.drq state => via2_irq_main_set 0x01 state s
  | ScsiEvent.irq state => scsi_irq state s

/-- The loop `while(m_via2_ifr & 0x01)` of `dma_scsi_a_step`: each turn makes one
access to the controller, which reports the events of the head of `dev`; the
bytes moved between the buffer and memory are outside `State`.  The loop is
followed as far as `dev` records accesses. -/
def dma_scsi_a_loop : List (List ScsiEvent) → State → State
  | [], s => s
  | evs :: dev, s =>
    if s.m_via2_ifr &&& 0x01 ≠ 0 then
      dma_scsi_a_loop dev (evs.foldl (fun st e => scsi_event_in_step e st) s)
    else s

/-- `macpdm_state::dma_scsi_a_step`. -/
def dma_scsi_a_step (dev : List (List ScsiEvent)) (s : State) : State :=
  { dma_scsi_a_loop dev { s with m_dma_scsi_a_in_step := true } with
    m_dma_scsi_a_in_step := false }

/-- `macpdm_state::scsi_drq`; `dev` is what the controller reports during the DMA
step the handler may start. -/
def scsi_drq (state : Int) (dev : List (List ScsiEvent)) (s : State) : State :=
  let s1 := via2_irq_main_set 0x01 state s
  if s1.m_dma_scsi_a_ctrl &&& 0x02 ≠ 0 ∧ s1.m_via2_ifr &&& 0x01 ≠ 0 ∧
      s1.m_dma_scsi_a_in_step = false then
    dma_scsi_a_step dev s1
  else s1

/-- A handler the SCSI controller calls while it is accessed outside a DMA
step: `scsi_drq`, with what the controller reports during the DMA step that
call may start, or `scsi_irq`. -/
inductive ScsiCall where
  | drq (state : Int) (dev : List (List ScsiEvent))
  | irq (state : Int)

/-- The handler called for a `ScsiCall`. -/
def scsi_call (c : ScsiCall) (s : State) : State :=
  match c with
  | ScsiCall.drq state dev => scsi_drq state dev s
  | ScsiCall.irq state => scsi_irq state s

/-- The flush loop `while(m_via2_ifr & 0x01)` of `dma_scsi_a_ctrl_w`, one `dma_r`
access per turn, followed as far as `flush` records accesses. -/
def dma_scsi_a_flush : List (List ScsiCall) → State → State
  | [], s => s
  | calls :: flush, s =>
    if s.m_via2_ifr &&& 0x01 ≠ 0 then
      dma_scsi_a_flush flush (calls.foldl (fun st c => scsi_call c st) s)
    else s

/-- `macpdm_state::dma_scsi_a_ctrl_w`, on the fields of `State`. -/
def dma_scsi_a_ctrl_w (data : Nat) (flush : List (List ScsiCall))
    (dev : List (List ScsiEvent)) (s : State) : State :=
  let ctrl := if data &&& 1 ≠ 0 then (data &&& 0x42) &&& 0x40 else data &&& 0x42
  let s1 := { s with m_dma_scsi_a_ctrl := ctrl }
  let s2 := if data &&& 0x10 ≠ 0 then dma_scsi_a_flush flush s1 else s1
  if s2.m_dma_scsi_a_ctrl &&& 0x02 ≠ 0 ∧ s2.m_via2_ifr &&& 0x01 ≠ 0 ∧
      s2.m_dma_scsi_a_in_step = false then
    dma_scsi_a_step dev s2
  else s2

/-- The calls into the driver: `driver_reset`, the interrupt line handlers with
their line state, and the register writes. -/
inductive Op where
  | driver_reset
  | via1_irq (state : Int)
  | sound_irq (state : Int)
  | vblank_irq (state : Int)
  | slot2_irq (state : Int)
  | slot1_irq (state : Int)
  | scsi_irq (state : Int)
  | scsi_drq (state : Int) (dev : List (List ScsiEvent))
  | fdc_irq (state : Int)
  | irq_control_w (data : Nat)
  | via2_ier_w (data : Nat)
  | via2_sier_w (data : Nat)
  | via2_sifr_w (data : Nat)
  | dma_scsi_a_ctrl_w (data : Nat) (flush : List (List ScsiCall)) (dev : List (List ScsiEvent))
  | hmc_w (offset data : Nat)

/-- The state after one call. -/
def step (s : State) : Op → State
  | Op.driver_reset => driver_reset s
  | Op.via1_irq state => via1_irq state s
  | Op.sound_irq state => sound_irq state s
  | Op.vblank_irq state => vblank_irq state s
  | Op.slot2_irq state => slot2_irq state s
  | Op.slot1_irq state => slot1_irq state s
  | Op.scsi_irq state => scsi_irq state s
  | Op.scsi_drq state dev => scsi_drq state dev s
  | Op.fdc_irq state => fdc_irq state s
  | Op.irq_control_w data => irq_control_w data s
  | Op.via2_ier_w data => via2_ier_w data s
  | Op.via2_sier_w data => via2_sier_w data s
  | Op.via2_sifr_w data => via2_sifr_w data s
  | Op.dma_scsi_a_ctrl_w data flush dev => dma_scsi_a_ctrl_w data flush dev s
  | Op.hmc_w offset data => hmc_w offset data s

/-- The state after a sequence of calls, the first of the list first. -/
def run (s : State) (ops : List Op) : State :=
  ops.foldl step s

/-- Bit 1 of the main IRQ control register is set exactly when an enabled VIA2
flag is pending. -/
def via2_consistent (s : State) : Prop :=
  s.m_irq_control.testBit 1 = decide (s.m_via2_ifr &&& s.m_via2_ier ≠ 0)

/-- A state of the machine before anything has run: the member initialisers. -/
def power_on : State :=
  { m_hmc_reg := 0, m_hmc_buffer := 0, m_hmc_bit := 0, m_irq_control := 0,
    m_via2_ier := 0, m_via2_ifr := 0, m_via2_sier := 0, m_via2_sifr := 0,
    m_dma_scsi_a_ctrl := 0, m_dma_scsi_a_in_step := false, ppc_irq := false,
    vram_offset := 0 }

end Macpdm

namespace Mos6530

open TimerState

/-! ## Lemmas on the scheduler -/

theorem run_due_none (s : State) (h : s.m_timer = none) : run_due s = s := by
  simp [run_due, h]

theorem run_due_pending (s : State) (T : Nat) (h : s.m_timer = some T) (hlt : s.now < T) :
    run_due s = s := by
  simp [run_due, h, Nat.not_le.mpr hlt]

theorem run_due_fire (s : State) (T : Nat) (h : s.m_timer = some T) (hge : T ≤ s.now) :
    run_due s = timer_end { s with m_timer := none } := by
  simp [run_due, h, hge]

theorem advance_none (n : Nat) (s : State) (h : s.m_timer = none) :
    advance n s = { s with now := s.now + n } := by
  induction n with
  | zero => simp [advance, run_due_none s h]
  | succ n ih =>
    rw [advance, ih, tick, run_due_none _ (by simpa using h)]
    simp [Nat.add_assoc]

theorem advance_before (n : Nat) (s : State) (T : Nat) (h : s.m_timer = some T)
    (hlt : s.now + n < T) : advance n s = { s with now := s.now + n } := by
  induction n with
  | zero => simp [advance, run_due_pending s T h (by simpa using hlt)]
  | succ n ih =>
    rw [advance, ih (by omega), tick, run_due_pending _ T (by simpa using h) (by simp; omega)]
    simp [Nat.add_assoc]

theorem advance_after (n : Nat) (s : State) (T : Nat) (h : s.m_timer = some T)
    (hge : T ≤ s.now + n) :
    advance n s = { timer_end { s with m_timer := none } with now := s.now + n } := by
  induction n with
  | zero => simp [advance, run_due_fire s T h (by simpa using hge), timer_end, update_irq, irq_level]
  | succ n ih =>
    by_cases hn : T ≤ s.now + n
    · rw [advance, ih hn, tick, run_due_none _ (by simp [timer_end, update_irq])]
      simp [Nat.add_assoc]
    · rw [advance, advance_before n s T h (by omega), tick,
        run_due_fire _ T (by simpa using h) (by simp; omega)]
      simp [timer_end, update_irq, irq_level, Nat.add_assoc]

/-! ## Lemmas on the timer load -/

theorem prescale_shift_mem (offset : Nat) :
    prescale_shift offset = 0 ∨ prescale_shift offset = 3 ∨
      prescale_shift offset = 6 ∨ prescale_shift offset = 10 := by
  unfold prescale_shift
  split <;> simp

theorem two_pow_pos_nat (n : Nat) : 0 < 2 ^ n := Nat.pos_of_ne_zero (by simp)

theorem timer_w_m_timer (s : State) (offset v : Nat) (ie : Bool) :
    (timer_w offset v ie s).m_timer = some (s.now + v * 2 ^ prescale_shift offset) := by
  simp [timer_w, timer_irq_enable, update_irq, Nat.shiftLeft_eq]

theorem timer_w_now (s : State) (offset v : Nat) (ie : Bool) :
    (timer_w offset v ie s).now = s.now := by
  simp [timer_w, timer_irq_enable, update_irq]

/-- Reading while the load is still counting: the remaining ticks, rounded up to
whole prescaled ticks. -/
theorem get_timer_counting (s : State) (offset v t : Nat) (ie : Bool)
    (ht : t < v * 2 ^ prescale_shift offset) :
    get_timer (advance t (timer_w offset v ie s)) =
      ((v * 2 ^ prescale_shift offset - t + (2 ^ prescale_shift offset - 1)) /
        2 ^ prescale_shift offset) % 256 := by
  rw [advance_before t _ _ (timer_w_m_timer s offset v ie) (by rw [timer_w_now]; omega)]
  simp only [get_timer, timer_w, timer_irq_enable, update_irq, Nat.shiftLeft_eq]
  congr 3
  omega

/-- Reading once the load has expired: the ticks past the expiry, negated modulo 256. -/
theorem get_timer_spinning (s : State) (offset v j : Nat) (ie : Bool) :
    get_timer (advance (v * 2 ^ prescale_shift offset + j) (timer_w offset v ie s)) =
      (256 - j % 256) % 256 := by
  rw [advance_after _ _ _ (timer_w_m_timer s offset v ie) (by rw [timer_w_now]; omega)]
  simp only [get_timer, timer_end, timer_w, timer_irq_enable, update_irq, Nat.shiftLeft_eq]
  congr 3
  omega

/-- The timer flag during and after a load: clear before the expiry tick, then
equal to the interrupt enable of the load. -/
theorem irq_timer_after_load (s : State) (offset v t : Nat) (ie : Bool) :
    (advance t (timer_w offset v ie s)).m_irq_timer =
      (decide (v * 2 ^ prescale_shift offset ≤ t) && ie) := by
  by_cases ht : v * 2 ^ prescale_shift offset ≤ t
  · rw [advance_after t _ _ (timer_w_m_timer s offset v ie) (by rw [timer_w_now]; omega)]
    simp [timer_end, timer_w, timer_irq_enable, update_irq, ht]
  · rw [advance_before t _ _ (timer_w_m_timer s offset v ie) (by rw [timer_w_now]; omega)]
    simp [timer_w, timer_irq_enable, update_irq, ht]

/-- The interrupt line during and after a load. -/
theorem irq_line_after_load (s : State) (offset v t : Nat) (ie : Bool) :
    (advance t (timer_w offset v ie s)).irq =
      ((decide (v * 2 ^ prescale_shift offset ≤ t) && ie) ||
        (supports_edge s.variant && (s.m_irq_edge && s.m_ie_edge))) := by
  by_cases ht : v * 2 ^ prescale_shift offset ≤ t
  · rw [advance_after t _ _ (timer_w_m_timer s offset v ie) (by rw [timer_w_now]; omega)]
    simp [timer_end, timer_w, timer_irq_enable, update_irq, irq_level, ht]
  · rw [advance_before t _ _ (timer_w_m_timer s offset v ie) (by rw [timer_w_now]; omega)]
    simp [timer_w, timer_irq_enable, update_irq, irq_level, ht]

/-- The timer state during and after a load, and the pending one-shot. -/
theorem timer_state_after_load (s : State) (offset v t : Nat) (ie : Bool) :
    (advance t (timer_w offset v ie s)).m_timerstate =
      (if v * 2 ^ prescale_shift offset ≤ t then TIMER_SPINNING else TIMER_COUNTING) ∧
    (advance t (timer_w offset v ie s)).m_timer =
      (if v * 2 ^ prescale_shift offset ≤ t then none
        else some (s.now + v * 2 ^ prescale_shift offset)) := by
  by_cases ht : v * 2 ^ prescale_shift offset ≤ t
  · rw [advance_after t _ _ (timer_w_m_timer s offset v ie) (by rw [timer_w_now]; omega)]
    simp [timer_end, timer_w, timer_irq_enable, update_irq, ht]
  · rw [advance_before t _ _ (timer_w_m_timer s offset v ie) (by rw [timer_w_now]; omega)]
    simp [timer_w, timer_irq_enable, update_irq, ht, Nat.shiftLeft_eq]

/-- With no one-shot pending, nothing but the tick reference changes while time
passes after a read of the flag register: both flags stay clear and the line
stays deasserted. -/
theorem quiet_after_irq_r (s : State) (m : Nat) (h : s.m_timer = none) :
    (advance m (irq_r s).2).m_irq_timer = false ∧ (advance m (irq_r s).2).irq = false ∧
      (advance m (irq_r s).2).m_timerstate = s.m_timerstate := by
  rw [advance_none m _ (by simpa [irq_r, update_irq] using h)]
  simp [irq_r, update_irq, irq_level]

theorem ceil_div_mul (n p : Nat) (hp : 0 < p) : (n * p + (p - 1)) / p = n := by
  rw [Nat.add_comm, Nat.add_mul_div_right _ _ hp, Nat.div_eq_of_lt (by omega)]
  simp

/-! ## Theorems on the timer -/

/-- C1, countdown correctness: for every selector (the divisors are 1, 8, 64 and
1024), every load value v in 0..255 and every k with k ≤ v, loading the timer and
reading it, through either read register, after exactly k prescaled ticks
returns v - k. -/
theorem countdown_correct (s : State) (offset v k : Nat) (ie re : Bool)
    (hv : v ≤ 255) (hk : k ≤ v) :
    2 ^ prescale_shift offset = [1, 8, 64, 1024].getD (offset % 4) 0 ∧
    (timer_r re (advance (k * 2 ^ prescale_shift offset) (timer_w offset v ie s))).1 = v - k := by
  constructor
  · have h4 : offset % 4 < 4 := Nat.mod_lt _ (by decide)
    unfold prescale_shift
    interval_cases h : offset % 4 <;> simp
  · have hp := two_pow_pos_nat (prescale_shift offset)
    show get_timer _ = v - k
    rcases Nat.lt_or_ge k v with hlt | hge
    · rw [get_timer_counting s offset v _ ie (Nat.mul_lt_mul_of_pos_right hlt hp),
        ← Nat.sub_mul, ceil_div_mul _ _ hp]
      exact Nat.mod_eq_of_lt (by omega)
    · have hkv : k = v := Nat.le_antisymm hk hge
      subst hkv
      have := get_timer_spinning s offset k 0 ie
      simp only [Nat.add_zero] at this
      rw [this]
      simp

theorem countdown_correct_witness :
    2 ^ prescale_shift 1 = [1, 8, 64, 1024].getD (1 % 4) 0 ∧
    (timer_r true (advance (9 * 2 ^ prescale_shift 1)
      (timer_w 1 10 true (device_start Variant.RIOT 128 [])))).1 = 10 - 9 :=
  countdown_correct (device_start Variant.RIOT 128 []) 1 10 9 true true (by decide) (by decide)

/-- C2, zero-crossing interrupt: after a load with interrupt enabled, value v and
divisor p, the timer flag is clear at every tick before v·p, is set at tick
exactly v·p and stays set at the later ticks; after a load with interrupt
disabled it is clear at every tick. -/
theorem zero_crossing_interrupt (s : State) (offset v : Nat) :
    (∀ t, t < v * 2 ^ prescale_shift offset →
      (advance t (timer_w offset v true s)).m_irq_timer = false) ∧
    (advance (v * 2 ^ prescale_shift offset) (timer_w offset v true s)).m_irq_timer = true ∧
    (∀ t, v * 2 ^ prescale_shift offset ≤ t →
      (advance t (timer_w offset v true s)).m_irq_timer = true) ∧
    (∀ t, (advance t (timer_w offset v false s)).m_irq_timer = false) := by
  refine ⟨?_, ?_, ?_, ?_⟩
  · intro t ht
    rw [irq_timer_after_load]
    simp [Nat.not_le.mpr ht]
  · rw [irq_timer_after_load]
    simp
  · intro t ht
    rw [irq_timer_after_load]
    simp [ht]
  · intro t
    rw [irq_timer_after_load]
    simp

theorem zero_crossing_interrupt_witness :
    (advance 79 (timer_w 1 10 true (device_start Variant.RIOT 128 []))).m_irq_timer = false ∧
    (advance 81 (timer_w 1 10 true (device_start Variant.RIOT 128 []))).m_irq_timer = true :=
  ⟨(zero_crossing_interrupt (device_start Variant.RIOT 128 []) 1 10).1 79 (by decide),
   (zero_crossing_interrupt (device_start Variant.RIOT 128 []) 1 10).2.2.1 81 (by decide)⟩

/-- C3, spin wraparound: after a load (v, p) has expired, a read at tick
v·p + j returns (256 - j) mod 256 (0xFF, 0xFE, ... for j = 1, 2, ..., one step
per clock tick whatever the prescale, period 256), the timer is SPINNING, and
once the flag register has been read the timer flag and the interrupt line stay
clear at every later tick: spinning asserts no further interrupt. -/
theorem spin_wraparound (s : State) (offset v j : Nat) (ie re : Bool) :
    (((timer_r re (advance (v * 2 ^ prescale_shift offset + j)
        (timer_w offset v ie s))).1 : Nat) : Int) = (256 - (j : Int)) % 256 ∧
    (advance (v * 2 ^ prescale_shift offset + j) (timer_w offset v ie s)).m_timerstate
      = TIMER_SPINNING ∧
    (∀ m, (advance m (irq_r (advance (v * 2 ^ prescale_shift offset + j)
        (timer_w offset v ie s))).2).m_irq_timer = false ∧
      (advance m (irq_r (advance (v * 2 ^ prescale_shift offset + j)
        (timer_w offset v ie s))).2).irq = false ∧
      (advance m (irq_r (advance (v * 2 ^ prescale_shift offset + j)
        (timer_w offset v ie s))).2).m_timerstate = TIMER_SPINNING) := by
  have hst := timer_state_after_load s offset v (v * 2 ^ prescale_shift offset + j) ie
  simp only [Nat.le_add_right, if_true] at hst
  refine ⟨?_, hst.1, ?_⟩
  · show ((get_timer _ : Nat) : Int) = _
    rw [get_timer_spinning]
    omega
  · intro m
    have h := quiet_after_irq_r _ m hst.2
    rw [hst.1] at h
    exact h

/-- C4, reload cancels state: from every chip state a timer load with value v in
0..255 leaves the timer COUNTING with the timer flag clear, the one-shot
scheduled anew for the expiry of this load, the interrupt line free of the
timer, and a read with zero elapsed ticks returns v. -/
theorem reload_cancels_state (s : State) (offset v : Nat) (ie re : Bool) (hv : v ≤ 255) :
    (timer_w offset v ie s).m_timerstate = TIMER_COUNTING ∧
    (timer_w offset v ie s).m_irq_timer = false ∧
    (timer_w offset v ie s).m_timer = some (s.now + v * 2 ^ prescale_shift offset) ∧
    (timer_w offset v ie s).irq = (supports_edge s.variant && (s.m_irq_edge && s.m_ie_edge)) ∧
    (timer_r re (timer_w offset v ie s)).1 = v := by
  refine ⟨?_, ?_, timer_w_m_timer s offset v ie, ?_, ?_⟩
  · simp [timer_w, timer_irq_enable, update_irq]
  · simp [timer_w, timer_irq_enable, update_irq]
  · simp [timer_w, timer_irq_enable, update_irq, irq_level]
  · simp only [timer_r]
    simp only [get_timer, timer_w, timer_irq_enable, update_irq, Nat.shiftLeft_eq,
      Nat.add_sub_cancel_left]
    rw [ceil_div_mul _ _ (two_pow_pos_nat _)]
    exact Nat.mod_eq_of_lt (by omega)

theorem reload_cancels_state_witness :
    (timer_w 2 200 false (timer_end (timer_w 0 3 true (device_start Variant.RIOT 128 [])))).m_timerstate
      = TIMER_COUNTING ∧
    (timer_w 2 200 false (timer_end (timer_w 0 3 true (device_start Variant.RIOT 128 [])))).m_irq_timer
      = false ∧
    (timer_r true (timer_w 2 200 false
      (timer_end (timer_w 0 3 true (device_start Variant.RIOT 128 []))))).1 = 200 :=
  have h := reload_cancels_state
    (timer_end (timer_w 0 3 true (device_start Variant.RIOT 128 []))) 2 200 false true (by decide)
  ⟨h.1, h.2.1, h.2.2.2.2⟩

/-- C7, scenario: in any state with no enabled edge interrupt pending, after
loading the timer with selector 01 (divide by 8), value 10 and interrupt
enabled, a read after 79 ticks returns 1 with the interrupt line deasserted,
after 80 ticks 0 with the line asserted, after 81 ticks 0xFF with the line
still asserted. -/
theorem scenario_div8_load10 (s : State) (re : Bool)
    (hedge : (supports_edge s.variant && (s.m_irq_edge && s.m_ie_edge)) = false) :
    (timer_r re (advance 79 (timer_w 1 10 true s))).1 = 1 ∧
    (advance 79 (timer_w 1 10 true s)).irq = false ∧
    (timer_r re (advance 80 (timer_w 1 10 true s))).1 = 0 ∧
    (advance 80 (timer_w 1 10 true s)).irq = true ∧
    (timer_r re (advance 81 (timer_w 1 10 true s))).1 = 0xFF ∧
    (advance 81 (timer_w 1 10 true s)).irq = true := by
  have hp : prescale_shift 1 = 3 := rfl
  refine ⟨?_, ?_, ?_, ?_, ?_, ?_⟩
  · simp only [timer_r]
    rw [get_timer_counting _ 1 10 79 true (by rw [hp]; decide), hp]
    decide
  · rw [irq_line_after_load, hp, hedge]
    decide
  · simp only [timer_r]
    have h := get_timer_spinning s 1 10 0 true
    rw [hp] at h
    exact h
  · rw [irq_line_after_load, hp]
    simp
  · simp only [timer_r]
    have h := get_timer_spinning s 1 10 1 true
    rw [hp] at h
    exact h
  · rw [irq_line_after_load, hp]
    simp

theorem scenario_div8_load10_witness :
    (supports_edge (edge_w 2 0 (device_start Variant.RIOT 128 [])).variant &&
      ((edge_w 2 0 (device_start Variant.RIOT 128 [])).m_irq_edge &&
        (edge_w 2 0 (device_start Variant.RIOT 128 [])).m_ie_edge)) = false ∧
    (timer_r true (advance 79 (timer_w 1 10 true
      (edge_w 2 0 (device_start Variant.RIOT 128 []))))).1 = 1 ∧
    (advance 79 (timer_w 1 10 true (edge_w 2 0 (device_start Variant.RIOT 128 [])))).irq = false ∧
    (advance 80 (timer_w 1 10 true (edge_w 2 0 (device_start Variant.RIOT 128 [])))).irq = true :=
  have h := scenario_div8_load10 (edge_w 2 0 (device_start Variant.RIOT 128 [])) true (by decide)
  ⟨by decide, h.1, h.2.1, h.2.2.2.1⟩

/-! ## Theorems on the ports -/

theorem testBit_bool_toNat (b : Bool) (k : Nat) : b.toNat.testBit k = (decide (k = 0) && b) := by
  cases b
  · simp
  · cases k with
    | zero => simp
    | succ k => simp [Nat.testBit_succ]

theorem testBit_ofBits (f : Nat → Bool) (n j : Nat) :
    (ofBits f n).testBit j = (decide (j < n) && f j) := by
  induction n with
  | zero => simp [ofBits]
  | succ n ih =>
    rw [ofBits, Nat.testBit_or, ih, Nat.testBit_shiftLeft, testBit_bool_toNat]
    by_cases h1 : j < n
    · have h2 : ¬ j ≥ n := by omega
      have h3 : j < n + 1 := by omega
      simp [h1, h2, h3]
    · by_cases h4 : j = n
      · subst h4
        simp
      · have h5 : ¬ j < n + 1 := by omega
        have h6 : ¬ j - n = 0 := by omega
        simp [h1, h5, h6]

theorem testBit_byte_high (x j : Nat) (hx : x < 256) (hj : 8 ≤ j) : x.testBit j = false := by
  apply Nat.testBit_eq_false_of_lt
  calc x < 2 ^ 8 := hx
    _ ≤ 2 ^ j := Nat.pow_le_pow_right (by decide) hj

theorem testBit_255 (j : Nat) : (255 : Nat).testBit j = decide (j < 8) := by
  have h : (255 : Nat) = 2 ^ 8 - 1 := by decide
  rw [h, Nat.testBit_two_pow_sub_one]

/-- The per-bit port read is the mask formula of the latch, the direction
register and the external level. -/
theorem port_read_eq (cb : PortIn) (out ddr input_level i : Nat)
    (hout : out < 256) (hi : i < 256) (hl : port_level cb input_level i) :
    port_read cb out ddr input_level = (out &&& ddr) ||| (i &&& (ddr ^^^ 0xFF)) := by
  apply Nat.eq_of_testBit_eq
  intro j
  rw [port_read, testBit_ofBits]
  simp only [Nat.testBit_or, Nat.testBit_and, Nat.testBit_xor, testBit_255]
  by_cases hj : j < 8
  · rw [hl j hj]
    cases ddr.testBit j <;> simp [hj]
  · rw [testBit_byte_high out j hout (by omega), testBit_byte_high i j hi (by omega)]
    simp [hj]

/-- C5, port read/write round-trip: for every DDR mask d, written value w and
external input level i (bytes), after write_ddr(d) and write_data(w) a data read
of port A, and of port B, returns (w AND d) OR (i AND NOT d), whatever was in the
latch and the direction register before. -/
theorem port_round_trip (s : State) (cbA cbB : PortIn) (d w iA iB : Nat)
    (hw : w < 256) (hA : iA < 256) (hB : iB < 256)
    (hlA : port_level cbA s.m_pa_in iA) (hlB : port_level cbB s.m_pb_in iB) :
    (pa_data_r cbA (pa_data_w w (pa_ddr_w d s))).1 = (w &&& d) ||| (iA &&& (d ^^^ 0xFF)) ∧
    (pb_data_r cbB (pb_data_w w (pb_ddr_w d s))).1 = (w &&& d) ||| (iB &&& (d ^^^ 0xFF)) := by
  constructor
  · exact port_read_eq cbA w d s.m_pa_in iA hw hA hlA
  · exact port_read_eq cbB w d s.m_pb_in iB hw hB hlB

theorem port_round_trip_witness :
    (pa_data_r PortIn.unset (pa_data_w 0x35 (pa_ddr_w 0x0f
      (pa_w 6 false (device_start Variant.RIOT 128 []))))).1
        = (0x35 &&& 0x0f) ||| (0xbf &&& (0x0f ^^^ 0xFF)) ∧
    (pb_data_r { in8 := some 0x5a, line := fun _ => none } (pb_data_w 0x35 (pb_ddr_w 0x0f
      (pa_w 6 false (device_start Variant.RIOT 128 []))))).1
        = (0x35 &&& 0x0f) ||| (0x5a &&& (0x0f ^^^ 0xFF)) :=
  port_round_trip (pa_w 6 false (device_start Variant.RIOT 128 [])) PortIn.unset
    { in8 := some 0x5a, line := fun _ => none } 0x0f 0x35 0xbf 0x5a
    (by decide) (by decide) (by decide) (by decide) (by decide)

/-! ## Theorems on the edge detector, the aggregator and reset -/

/-- C6, edge detection: observing a new level on Port A bit 7, through the
edge detector itself or through a change of input line 7, leaves the edge flag
set exactly when it was set before or the last observed level was the opposite
of the polarity and the new level is the polarity (0 to 1 for RISING, 1 to 0 for
FALLING); from a clear flag an opposite or absent change leaves it clear; the
stored last level becomes the new level; configuring the polarity alone changes
neither the flag nor the last level. -/
theorem edge_detection (s : State) (new_level : Bool) (offset data : Nat) :
    (edge_detect new_level s).m_irq_edge =
      (s.m_irq_edge || (s.m_pa7 == !s.m_pa7_dir && new_level == s.m_pa7_dir)) ∧
    (edge_detect new_level s).m_pa7 = new_level ∧
    (pa_w 7 new_level s).m_irq_edge =
      (s.m_irq_edge || (s.m_pa7 == !s.m_pa7_dir && new_level == s.m_pa7_dir)) ∧
    (pa_w 7 new_level s).m_pa7 = new_level ∧
    ((edge_detect new_level { s with m_irq_edge := false, m_pa7_dir := true }).m_irq_edge
      = (!s.m_pa7 && new_level)) ∧
    ((edge_detect new_level { s with m_irq_edge := false, m_pa7_dir := false }).m_irq_edge
      = (s.m_pa7 && !new_level)) ∧
    (edge_w offset data s).m_pa7_dir = offset.testBit 0 ∧
    (edge_w offset data s).m_irq_edge = s.m_irq_edge ∧
    (edge_w offset data s).m_pa7 = s.m_pa7 := by
  refine ⟨?_, ?_, ?_, ?_, ?_, ?_, ?_, ?_, ?_⟩
  · simp only [edge_detect, update_irq]
    cases s.m_irq_edge <;> cases s.m_pa7 <;> cases s.m_pa7_dir <;> cases new_level <;> rfl
  · simp [edge_detect, update_irq]
  · simp only [pa_w, if_true, edge_detect, update_irq]
    cases s.m_irq_edge <;> cases s.m_pa7 <;> cases s.m_pa7_dir <;> cases new_level <;> rfl
  · simp [pa_w, edge_detect, update_irq]
  · simp only [edge_detect, update_irq]
    cases s.m_pa7 <;> cases new_level <;> rfl
  · simp only [edge_detect, update_irq]
    cases s.m_pa7 <;> cases new_level <;> rfl
  · simp [edge_w, update_irq]
  · simp [edge_w, update_irq]
  · simp [edge_w, update_irq]

theorem irq_consistent_update_irq (s : State) : irq_consistent (update_irq s) := by
  simp [irq_consistent, update_irq, irq_level]

theorem irq_consistent_run_due (s : State) (h : irq_consistent s) :
    irq_consistent (run_due s) := by
  unfold run_due
  split
  · split
    · exact irq_consistent_update_irq _
    · exact h
  · exact h

theorem irq_consistent_step (s : State) (op : Op) (h : irq_consistent s) :
    irq_consistent (step s op) := by
  cases op with
  | reset => exact irq_consistent_update_irq _
  | rom_r offset => exact h
  | ram_r offset => exact h
  | ram_w offset data => exact h
  | pa_data_r cb => exact irq_consistent_update_irq _
  | pa_data_w data => exact h
  | pb_data_r cb => exact h
  | pb_data_w data => exact h
  | pa_ddr_r => exact h
  | pa_ddr_w data => exact h
  | pb_ddr_r => exact h
  | pb_ddr_w data => exact h
  | timer_off_r => exact h
  | timer_on_r => exact h
  | irq_r => exact irq_consistent_update_irq _
  | timer_off_w offset data => exact irq_consistent_update_irq _
  | timer_on_w offset data => exact irq_consistent_update_irq _
  | edge_w offset data => exact irq_consistent_update_irq _
  | pa_w bit state =>
    show irq_consistent (pa_w bit state s)
    unfold pa_w
    split
    · exact irq_consistent_update_irq _
    · exact h
  | pb_w bit state => exact h
  | tick => exact irq_consistent_run_due _ h

theorem irq_consistent_run (ops : List Op) (s : State) (h : irq_consistent s) :
    irq_consistent (run s ops) := by
  induction ops generalizing s with
  | nil => exact h
  | cons op ops ih => exact ih (step s op) (irq_consistent_step s op h)

/-- C8, interrupt line consistency: in every state reached from a reset through
register accesses, input-line changes and clock ticks with timer expiry, the
interrupt output is asserted if and only if the timer flag and the timer enable
are set or, on the variant with the edge detector (RIOT), the edge flag and the
edge enable are set. -/
theorem irq_line_consistent (s0 : State) (ops : List Op) :
    (run (device_reset s0) ops).irq = true ↔
      (((run (device_reset s0) ops).m_irq_timer = true ∧
          (run (device_reset s0) ops).m_ie_timer = true) ∨
        ((run (device_reset s0) ops).variant = Variant.RIOT ∧
          (run (device_reset s0) ops).m_irq_edge = true ∧
          (run (device_reset s0) ops).m_ie_edge = true)) := by
  have h := irq_consistent_run ops (device_reset s0) (irq_consistent_update_irq _)
  rw [h, irq_level]
  cases (run (device_reset s0) ops).variant <;> simp [supports_edge]

/-- What a reset does on the model: both ports get DDR = 0x00 and output latch
0x00 and the timer flag is clear (spec 3); the edge flag and the edge enable
are as before, so the line after the reset is the enabled edge flag of a RIOT. -/
theorem device_reset_effect (s : State) :
    (device_reset s).m_pa_ddr = 0x00 ∧ (device_reset s).m_pa_out = 0x00 ∧
    (device_reset s).m_pb_ddr = 0x00 ∧ (device_reset s).m_pb_out = 0x00 ∧
    (device_reset s).m_irq_timer = false ∧
    (device_reset s).m_irq_edge = s.m_irq_edge ∧ (device_reset s).m_ie_edge = s.m_ie_edge ∧
    (device_reset s).irq = (supports_edge s.variant && (s.m_irq_edge && s.m_ie_edge)) := by
  simp [device_reset, update_irq, irq_level]

theorem shift_valid_timer_w (s : State) (offset data : Nat) (ie : Bool) :
    shift_valid (timer_w offset data ie s) := by
  have h := prescale_shift_mem offset
  simpa [shift_valid, timer_w, timer_irq_enable, update_irq] using h

theorem shift_valid_step (s : State) (op : Op) (h : shift_valid s) :
    shift_valid (step s op) := by
  cases op with
  | reset => simp [step, shift_valid, device_reset, update_irq]
  | rom_r offset => exact h
  | ram_r offset => exact h
  | ram_w offset data => exact h
  | pa_data_r cb => exact h
  | pa_data_w data => exact h
  | pb_data_r cb => exact h
  | pb_data_w data => exact h
  | pa_ddr_r => exact h
  | pa_ddr_w data => exact h
  | pb_ddr_r => exact h
  | pb_ddr_w data => exact h
  | timer_off_r => exact h
  | timer_on_r => exact h
  | irq_r => exact h
  | timer_off_w offset data => exact shift_valid_timer_w s offset data false
  | timer_on_w offset data => exact shift_valid_timer_w s offset data true
  | edge_w offset data => exact h
  | pa_w bit state =>
    show shift_valid (pa_w bit state s)
    unfold pa_w
    split
    · exact h
    · exact h
  | pb_w bit state => exact h
  | tick =>
    show shift_valid (run_due _)
    unfold run_due
    split
    · split
      · exact h
      · exact h
    · exact h

theorem shift_valid_run (ops : List Op) (s : State) (h : shift_valid s) :
    shift_valid (run s ops) := by
  induction ops generalizing s with
  | nil => exact h
  | cons op ops ih => exact ih (step s op) (shift_valid_step s op h)

/-- C10, prescale selection: a timer load with selector 0, 1, 2, 3 (the low two
bits of the offset) sets the prescale shift to 0, 3, 6, 10, the divisors 1, 8,
64, 1024, and in every state reached from a reset the stored prescale shift is
one of 0, 3, 6, 10. -/
theorem prescale_selection (s s0 : State) (offset data : Nat) (ie : Bool) (ops : List Op) :
    (timer_w offset data ie s).m_timershift = [0, 3, 6, 10].getD (offset % 4) 0 ∧
    2 ^ (timer_w offset data ie s).m_timershift = [1, 8, 64, 1024].getD (offset % 4) 0 ∧
    (run (device_reset s0) ops).m_timershift ∈ [0, 3, 6, 10] := by
  have hs : (timer_w offset data ie s).m_timershift = prescale_shift offset := by
    simp [timer_w, timer_irq_enable, update_irq]
  have h4 : offset % 4 < 4 := Nat.mod_lt _ (by decide)
  refine ⟨?_, ?_, ?_⟩
  · rw [hs]
    unfold prescale_shift
    interval_cases h : offset % 4 <;> simp
  · rw [hs]
    unfold prescale_shift
    interval_cases h : offset % 4 <;> simp
  · have h := shift_valid_run ops (device_reset s0)
      (by simp [shift_valid, device_reset, update_irq])
    simpa [shift_valid] using h

/-! ## Theorems on the on-chip memory -/

theorem m_rom_step (s : State) (op : Op) : (step s op).m_rom = s.m_rom := by
  cases op with
  | reset => rfl
  | rom_r offset => rfl
  | ram_r offset => rfl
  | ram_w offset data => rfl
  | pa_data_r cb => rfl
  | pa_data_w data => rfl
  | pb_data_r cb => rfl
  | pb_data_w data => rfl
  | pa_ddr_r => rfl
  | pa_ddr_w data => rfl
  | pb_ddr_r => rfl
  | pb_ddr_w data => rfl
  | timer_off_r => rfl
  | timer_on_r => rfl
  | irq_r => rfl
  | timer_off_w offset data => rfl
  | timer_on_w offset data => rfl
  | edge_w offset data => rfl
  | pa_w bit state =>
    show (pa_w bit state s).m_rom = s.m_rom
    unfold pa_w
    split <;> rfl
  | pb_w bit state => rfl
  | tick =>
    show (run_due _).m_rom = s.m_rom
    unfold run_due
    split
    · split <;> rfl
    · rfl

theorem m_rom_run (ops : List Op) (s : State) : (run s ops).m_rom = s.m_rom := by
  induction ops generalizing s with
  | nil => rfl
  | cons op ops ih => exact (ih (step s op)).trans (m_rom_step s op)

/-- C11, on-chip RAM: for every in-range offset o and byte d, `ram_w(o, d)`
followed by `ram_r(o)` returns d, `ram_r` at every other offset returns what it
returned before the write, the write changes nothing but the RAM, and a RAM read
leaves the state as it is. -/
theorem ram_read_write (s : State) (o d : Nat) (ho : o < s.m_ram.length) :
    ram_r o (ram_w o d s) = d ∧
    (∀ o2, o2 ≠ o → ram_r o2 (ram_w o d s) = ram_r o2 s) ∧
    ram_w o d s = { s with m_ram := (ram_w o d s).m_ram } ∧
    step s (Op.ram_r o) = s := by
  refine ⟨?_, ?_, rfl, rfl⟩
  · simp [ram_r, ram_w, List.getD_eq_getElem?_getD, ho]
  · intro o2 h2
    simp [ram_r, ram_w, List.getD_eq_getElem?_getD, List.getElem?_set_ne (Ne.symm h2)]

theorem ram_read_write_witness :
    ram_r 5 (ram_w 5 0xa7 (device_start Variant.RIOT 128 [])) = 0xa7 ∧
    (∀ o2, o2 ≠ 5 → ram_r o2 (ram_w 5 0xa7 (device_start Variant.RIOT 128 []))
      = ram_r o2 (device_start Variant.RIOT 128 [])) :=
  have h := ram_read_write (device_start Variant.RIOT 128 []) 5 0xa7 (by simp [device_start])
  ⟨h.1, h.2.1⟩

/-- C12, on-chip ROM: `rom_r(o)` returns the byte at offset o of the content the
chip was built with and leaves the state as it is; no operation of the chip
interface, `ram_w` among them, and no sequence of them changes the byte `rom_r`
returns at any offset. -/
theorem rom_read_only (variant : Variant) (rsize : Nat) (rom : List Nat) (s : State)
    (op : Op) (ops : List Op) (o o2 d : Nat) :
    rom_r o (device_start variant rsize rom) = rom.getD o 0 ∧
    step s (Op.rom_r o) = s ∧
    rom_r o (ram_w o2 d s) = rom_r o s ∧
    rom_r o (step s op) = rom_r o s ∧
    rom_r o (run s ops) = rom_r o s ∧
    rom_r o (run (device_start variant rsize rom) ops) = rom.getD o 0 := by
  refine ⟨rfl, rfl, rfl, ?_, ?_, ?_⟩
  · simp only [rom_r, m_rom_step]
  · simp only [rom_r, m_rom_run]
  · simp only [rom_r, m_rom_run]
    rfl

/-! ## Theorems on the flag register and the line entry points -/

/-- C13 as stated fails on the MIOT: with the edge flag latched and the timer
flag clear the flag register reads 0x00, not 0x40. -/
theorem irq_r_miot_no_edge_bit :
    miot_edge_latched.variant = Variant.MIOT ∧
    miot_edge_latched.m_irq_timer = false ∧
    miot_edge_latched.m_irq_edge = true ∧
    (irq_r miot_edge_latched).1 = 0x00 ∧
    (irq_r miot_edge_latched).1 ≠
      ((if miot_edge_latched.m_irq_timer then 0x80 else 0) |||
        (if miot_edge_latched.m_irq_edge then 0x40 else 0)) := by
  decide

/-- C13 amended: `irq_r` returns exactly (0x80 if the timer flag is latched) OR,
on the RIOT only, (0x40 if the edge flag is latched); bits 0-5 are always zero
and on the MIOT bit 6 is zero too; after the read the timer flag and the edge
flag are clear and the interrupt line is deasserted. -/
theorem irq_r_flags (s : State) :
    (irq_r s).1 = ((if s.m_irq_timer then 0x80 else 0) |||
      (if s.variant = Variant.RIOT ∧ s.m_irq_edge then 0x40 else 0)) ∧
    (irq_r s).1 % 0x40 = 0 ∧
    (s.variant = Variant.MIOT → (irq_r s).1 % 0x80 = 0) ∧
    (irq_r s).2.m_irq_timer = false ∧
    (irq_r s).2.m_irq_edge = false ∧
    (irq_r s).2.irq = false := by
  simp only [irq_r, get_irq_flags, update_irq, irq_level, IRQ_TIMER, IRQ_EDGE]
  cases s.variant <;> cases s.m_irq_timer <;> cases s.m_irq_edge <;>
    simp [supports_edge]

theorem irq_r_flags_witness :
    miot_edge_latched.variant = Variant.MIOT ∧ (irq_r miot_edge_latched).1 % 0x80 = 0 :=
  ⟨by decide, (irq_r_flags miot_edge_latched).2.2.1 (by decide)⟩

/-- C14, line-input dispatch: each of the sixteen per-line entry points is the
line write of its own port with its own bit index, `paN_w(level) = pa_w(N, level)`
and `pbN_w(level) = pb_w(N, level)` for N = 0..7. -/
theorem line_dispatch (level : Bool) (s : State) :
    (∀ n, n < 8 → (line_entry_points.getD n (fun _ st => st)) level s = pa_w n level s) ∧
    (∀ n, n < 8 → (line_entry_points.getD (8 + n) (fun _ st => st)) level s = pb_w n level s) ∧
    pa0_w level s = pa_w 0 level s ∧ pa1_w level s = pa_w 1 level s ∧
    pa2_w level s = pa_w 2 level s ∧ pa3_w level s = pa_w 3 level s ∧
    pa4_w level s = pa_w 4 level s ∧ pa5_w level s = pa_w 5 level s ∧
    pa6_w level s = pa_w 6 level s ∧ pa7_w level s = pa_w 7 level s ∧
    pb0_w level s = pb_w 0 level s ∧ pb1_w level s = pb_w 1 level s ∧
    pb2_w level s = pb_w 2 level s ∧ pb3_w level s = pb_w 3 level s ∧
    pb4_w level s = pb_w 4 level s ∧ pb5_w level s = pb_w 5 level s ∧
    pb6_w level s = pb_w 6 level s ∧ pb7_w level s = pb_w 7 level s := by
  refine ⟨?_, ?_, rfl, rfl, rfl, rfl, rfl, rfl, rfl, rfl, rfl, rfl, rfl, rfl, rfl, rfl, rfl, rfl⟩
  · intro n hn
    interval_cases n <;> rfl
  · intro n hn
    interval_cases n <;> rfl

theorem line_dispatch_witness :
    (line_entry_points.getD 7 (fun _ st => st)) true (device_start Variant.MIOT 64 [])
      = pa_w 7 true (device_start Variant.MIOT 64 []) :=
  (line_dispatch true (device_start Variant.MIOT 64 [])).1 7 (by decide)

end Mos6530

namespace Kim1

/-! ## Theorems on the KIM-1 handlers -/

theorem sel_lt_16 (data : Nat) : (data >>> 1) &&& 0xf < 16 :=
  Nat.and_lt_two_pow _ (by decide : 0xf < 2 ^ 4)

/-- A run of positive samples only counts: the other fields stay and the counter
goes up by the length of the run, modulo 2^32. -/
theorem cassette_samples_positive (pos : List Int) (s : State) (hpos : ∀ x ∈ pos, 0 < x)
    (hc : s.m_cassette_high_count < 2 ^ 32) :
    cassette_samples s pos =
      { s with m_cassette_high_count := (s.m_cassette_high_count + pos.length) % 2 ^ 32 } := by
  induction pos generalizing s with
  | nil =>
    simp only [cassette_samples, List.foldl_nil, List.length_nil, Nat.add_zero,
      Nat.mod_eq_of_lt hc]
  | cons x xs ih =>
    have hx : 0 < x := hpos x (List.mem_cons_self x xs)
    have hx2 : ¬ x ≤ 0 := by omega
    have hstep : cassette_input x s =
        { s with m_cassette_high_count := (s.m_cassette_high_count + 1) % 2 ^ 32 } := by
      simp [cassette_input, hx, hx2]
    have := ih (cassette_input x s) (fun y hy => hpos y (List.mem_cons_of_mem x hy))
      (by rw [hstep]; exact Nat.mod_lt _ (by decide))
    simp only [cassette_samples, List.foldl_cons] at this ⊢
    rw [this, hstep]
    simp only [List.length_cons]
    congr 1
    omega

/-- What the code does after a tone: with cassette input selected and the
counter at rest, a run of n positive samples (1 ≤ n < 2^32) ended by a
non-positive sample makes Port B bit 7 read 0 when n < 8 and 1 when n ≥ 8. -/
theorem cassette_tone_bit7 (pos : List Int) (v : Int) (s : State)
    (hpos : ∀ x ∈ pos, 0 < x) (hv : v ≤ 0) (hc : s.m_cassette_high_count = 0)
    (hb : s.m_u2_port_b &&& 0x20 = 0) (h1 : 1 ≤ pos.length) (h2 : pos.length < 2 ^ 32) :
    (u2_read_b (cassette_input v (cassette_samples s pos))).testBit 7
      = decide (8 ≤ pos.length) := by
  rw [cassette_samples_positive pos s hpos (by rw [hc]; decide), hc, Nat.zero_add,
    Nat.mod_eq_of_lt h2]
  have hv2 : ¬ v > 0 := by omega
  have hn : pos.length ≠ 0 := by omega
  by_cases h8 : pos.length < 8
  · have : ¬ 8 ≤ pos.length := by omega
    simp [u2_read_b, cassette_input, hv, hv2, hn, hb, h8, this]
    decide
  · have : 8 ≤ pos.length := by omega
    simp [u2_read_b, cassette_input, hv, hv2, hn, hb, h8, this]
    decide

/-- C15 on the code: with cassette input selected, after a high tone (three
positive samples, then a non-positive one) the comparator latch holds 0x80 and
Port B reads 0x7f, bit 7 = 0; after a low tone (nine positive samples, then a
non-positive one) Port B reads 0xff, bit 7 = 1. -/
theorem cassette_polarity_on_code :
    cassette_idle.m_u2_port_b &&& 0x20 = 0 ∧
    (cassette_samples cassette_idle [1, 1, 1, 0]).m_311_output = 0x80 ∧
    u2_read_b (cassette_samples cassette_idle [1, 1, 1, 0]) = 0x7f ∧
    (u2_read_b (cassette_samples cassette_idle [1, 1, 1, 0])).testBit 7 = false ∧
    u2_read_b (cassette_samples cassette_idle [1, 1, 1, 1, 1, 1, 1, 1, 1, 0]) = 0xff ∧
    (u2_read_b (cassette_samples cassette_idle [1, 1, 1, 1, 1, 1, 1, 1, 1, 0])).testBit 7
      = true := by
  decide

/-- C16 as stated fails: for data = 0x14 the 74145 output number is 10, outside
4..9, and the mask passed to the display is 64, not 0. -/
theorem digit_select_not_zero :
    (0x14 >>> 1) &&& 0xf = 10 ∧
    (u2_write_b 0x14 cassette_idle).1.write_my = 64 ∧
    (u2_write_b 0x14 cassette_idle).1.write_my ≠ 0 := by
  decide

/-- C16 amended: with s = (data >> 1) AND 0xF the mask passed to the display is
(1 << s) >> 4, that is 1 << (s - 4) for 4 ≤ s ≤ 15 and 0 for s ≤ 3; its low six
bits, the six LEDs, are 1 << (s - 4) when 4 ≤ s ≤ 9 and 0 for every other s. -/
theorem digit_select (data : Nat) (s : State) :
    (u2_write_b data s).1.write_my =
      (if 4 ≤ (data >>> 1) &&& 0xf then 1 <<< (((data >>> 1) &&& 0xf) - 4) else 0) ∧
    (u2_write_b data s).1.write_my % 64 =
      (if 4 ≤ (data >>> 1) &&& 0xf ∧ (data >>> 1) &&& 0xf ≤ 9
        then 1 <<< (((data >>> 1) &&& 0xf) - 4) else 0) ∧
    (u2_write_b data s).2.m_u2_port_b = data := by
  have h := sel_lt_16 data
  simp only [u2_write_b]
  generalize (data >>> 1) &&& 0xf = sel at h
  interval_cases sel <;> decide

/-- C17, single-step NMI: `sync_w(state)` pulses the NMI line if and only if the
stored SYNC level is nonzero, `state` is 0, the K7 flag is true and bit 2 (SST)
of the SPECIAL port is set; the stored SYNC level afterwards is `state`. -/
theorem sync_w_nmi (special : Nat) (state : Int) (s : State) :
    ((sync_w special state s).1 = true ↔
      (s.m_sync_state ≠ 0 ∧ state = 0 ∧ s.m_k7 = true ∧ special.testBit 2 = true)) ∧
    (sync_w special state s).2.m_sync_state = state := by
  constructor
  · simp [sync_w, and_assoc]
  · rfl

/-- C18, keyboard read: with s = (last Port B output >> 1) AND 0xF, `u2_read_a`
returns (ROW[s] AND 0x7F) OR 0x80 when s is 0, 1 or 2 and 0xFF for every other
s; bit 7 of the result is always 1, and for s < 3 each of the bits 0..6 is the
row's bit, so a pressed key (row bit low) reads as 0. -/
theorem keyboard_read (row : Nat → Nat) (s : State) :
    ((s.m_u2_port_b >>> 1) &&& 0x0f < 3 →
      u2_read_a row s = (row ((s.m_u2_port_b >>> 1) &&& 0x0f) &&& 0x7f) ||| 0x80) ∧
    (3 ≤ (s.m_u2_port_b >>> 1) &&& 0x0f → u2_read_a row s = 0xff) ∧
    (u2_read_a row s).testBit 7 = true ∧
    ((s.m_u2_port_b >>> 1) &&& 0x0f < 3 → ∀ k, k < 7 →
      (u2_read_a row s).testBit k = (row ((s.m_u2_port_b >>> 1) &&& 0x0f)).testBit k) := by
  have h127 : ∀ k, (0x7f : Nat).testBit k = decide (k < 7) := by
    intro k
    have h : (0x7f : Nat) = 2 ^ 7 - 1 := by decide
    rw [h, Nat.testBit_two_pow_sub_one]
  have h128 : ∀ k, (0x80 : Nat).testBit k = decide (k = 7) := by
    intro k
    have h : (0x80 : Nat) = 2 ^ 7 := by decide
    rw [h, Nat.testBit_two_pow]
    by_cases hk : k = 7 <;> simp [hk, eq_comm]
  refine ⟨?_, ?_, ?_, ?_⟩
  · intro h
    simp [u2_read_a, h]
  · intro h
    have : ¬ (s.m_u2_port_b >>> 1) &&& 0x0f < 3 := by omega
    simp [u2_read_a, this]
  · simp only [u2_read_a, Nat.testBit_or, h128]
    simp
  · intro h k hk
    have hk7 : ¬ k = 7 := by omega
    simp [u2_read_a, h, Nat.testBit_or, Nat.testBit_and, h127, h128, hk, hk7]

theorem keyboard_read_witness :
    u2_read_a (fun _ => 0x7d) cassette_idle
      = ((fun _ => 0x7d) ((cassette_idle.m_u2_port_b >>> 1) &&& 0x0f) &&& 0x7f) ||| 0x80 :=
  (keyboard_read (fun _ => 0x7d) cassette_idle).1 (by decide)

end Kim1

namespace Chessmate

/-! ## Theorems on the Chessmate control port -/

theorem and_128_eq_zero (data : Nat) : (data &&& 0x80 = 0) ↔ data.testBit 7 = false := by
  have h : (0x80 : Nat) = 2 ^ 7 := by decide
  rw [h, Nat.and_two_pow]
  cases data.testBit 7 <;> simp

/-- C19, control port decode: after `control_w(data)` the input mux is
data AND 7, the LED data is (data >> 3) AND 7, the 7-segment data is unchanged,
and the CPU IRQ line is asserted if and only if bit 7 of data is 0. -/
theorem control_w_decode (sw : Option Nat) (data : Nat) (s : State) :
    (control_w sw data s).2.m_inp_mux = data &&& 7 ∧
    (control_w sw data s).2.m_led_data = (data >>> 3) &&& 7 ∧
    (control_w sw data s).2.m_7seg_data = s.m_7seg_data ∧
    (control_w sw data s).1.irq = some (!data.testBit 7) := by
  refine ⟨rfl, rfl, rfl, ?_⟩
  simp only [control_w, Option.some.injEq]
  by_cases h : data.testBit 7 = false
  · simp [h, (and_128_eq_zero data).mpr h]
  · have h2 : ¬ (data &&& 0x80 = 0) := fun hc => h ((and_128_eq_zero data).mp hc)
    simp at h
    simp [h, h2]

/-- C20, speaker output: the value `control_w(data)` writes to the 1-bit DAC is
1 if and only if data AND 7 = 7 (74145 output Q7) and bit 0 of the sound-switch
port is 0, a missing port reading as 0; it is 0 otherwise. -/
theorem control_w_speaker (sw : Option Nat) (data : Nat) (s : State) :
    (control_w sw data s).1.dac =
      some (if data &&& 7 = 7 ∧ (sw.getD 0).testBit 0 = false then 1 else 0) ∧
    (control_w none data s).1.dac = some (if data &&& 7 = 7 then 1 else 0) := by
  have h : data &&& 7 < 8 := Nat.and_lt_two_pow _ (by decide : 7 < 2 ^ 3)
  have key : ∀ (x : Option Nat), (control_w x data s).1.dac =
      some (if data &&& 7 = 7 ∧ (x.getD 0).testBit 0 = false then 1 else 0) := by
    intro x
    simp only [control_w, Option.some.injEq]
    generalize data &&& 7 = mux at h
    interval_cases mux
    all_goals try simp
    split <;> omega
  refine ⟨key sw, ?_⟩
  rw [key none]
  simp

end Chessmate

namespace Macpdm

/-! ## Theorems on the main interrupt register -/

theorem and_two_ne_zero (c : Nat) : decide (c &&& 0x02 ≠ 0) = c.testBit 1 := by
  have h : (0x02 : Nat) = 2 ^ 1 := by decide
  rw [h, Nat.and_two_pow]
  cases c.testBit 1 <;> simp

theorem boolInt_inj (a b : Bool) : boolInt a = boolInt b ↔ a = b := by
  cases a <;> cases b <;> simp [boolInt]

/-- After `irq_main_set(0x02, b)` bit 1 of the control register is `b`, and the
VIA2 registers are as before. -/
theorem irq_main_set_two (b : Bool) (s : State) :
    (irq_main_set 0x02 (boolInt b) s).m_irq_control.testBit 1 = b ∧
    (irq_main_set 0x02 (boolInt b) s).m_via2_ifr = s.m_via2_ifr ∧
    (irq_main_set 0x02 (boolInt b) s).m_via2_ier = s.m_via2_ier := by
  have h2 : (0x02 : Nat).testBit 1 = true := by decide
  have h80 : (0x80 : Nat).testBit 1 = false := by decide
  have h7f : (0x7f : Nat).testBit 1 = true := by decide
  simp only [irq_main_set, boolInt_inj, and_two_ne_zero]
  by_cases hb : s.m_irq_control.testBit 1 = b
  · simp [hb]
  · have hn : (!s.m_irq_control.testBit 1) = b := by
      cases h : s.m_irq_control.testBit 1 <;> cases b <;> simp_all
    simp only [hb, if_false]
    split
    · simp [Nat.testBit_or, Nat.testBit_xor, h2, h80, hn]
    · split
      · simp [Nat.testBit_or, Nat.testBit_xor, h2, h80, hn]
      · simp [Nat.testBit_and, Nat.testBit_xor, h2, h7f, hn]

theorem consistent_irq_main_set_two (s : State) :
    via2_consistent
      (irq_main_set 0x02 (boolInt (decide (s.m_via2_ifr &&& s.m_via2_ier ≠ 0))) s) := by
  have h := irq_main_set_two (decide (s.m_via2_ifr &&& s.m_via2_ier ≠ 0)) s
  unfold via2_consistent
  rw [h.1, h.2.1, h.2.2]

theorem consistent_via2_irq_main_set (mask : Nat) (state : Int) (s : State)
    (h : via2_consistent s) : via2_consistent (via2_irq_main_set mask state s) := by
  unfold via2_irq_main_set
  split
  · exact h
  · exact consistent_irq_main_set_two _

theorem consistent_via2_irq_slot_set (mask : Nat) (state : Int) (s : State)
    (h : via2_consistent s) : via2_consistent (via2_irq_slot_set mask state s) := by
  unfold via2_irq_slot_set
  split
  · exact h
  · exact consistent_via2_irq_main_set _ _ _ h

theorem consistent_via2_ier_w (data : Nat) (s : State) :
    via2_consistent (via2_ier_w data s) := by
  unfold via2_ier_w
  exact consistent_irq_main_set_two _

theorem consistent_via2_sier_w (data : Nat) (s : State) (h : via2_consistent s) :
    via2_consistent (via2_sier_w data s) := by
  unfold via2_sier_w
  apply consistent_via2_irq_main_set
  split <;> exact h

theorem consistent_via2_sifr_w (data : Nat) (s : State) (h : via2_consistent s) :
    via2_consistent (via2_sifr_w data s) := by
  unfold via2_sifr_w
  split
  · exact consistent_via2_irq_main_set _ _ _ h
  · exact h

theorem consistent_via1_irq (state : Int) (s : State) (h : via2_consistent s) :
    via2_consistent (via1_irq state s) := by
  have h1 : (0x01 : Nat).testBit 1 = false := by decide
  have h80 : (0x80 : Nat).testBit 1 = false := by decide
  have h7f : (0x7f : Nat).testBit 1 = true := by decide
  unfold via2_consistent at h ⊢
  unfold via1_irq irq_main_set
  split
  · exact h
  · simp only []
    split
    · simpa [Nat.testBit_or, Nat.testBit_xor, h1, h80] using h
    · split
      · simpa [Nat.testBit_or, Nat.testBit_xor, h1, h80] using h
      · simpa [Nat.testBit_and, Nat.testBit_xor, h1, h7f] using h

theorem consistent_irq_control_w (data : Nat) (s : State) (h : via2_consistent s) :
    via2_consistent (irq_control_w data s) := by
  have h3f : (0x3f : Nat).testBit 1 = true := by decide
  have h40 : (0x40 : Nat).testBit 1 = false := by decide
  have h7f : (0x7f : Nat).testBit 1 = true := by decide
  have h1 : via2_consistent
      (if (s.m_irq_control ^^^ data) &&& 0x40 ≠ 0 then
        { s with m_irq_control := (s.m_irq_control &&& 0x3f) ||| (data &&& 0x40),
                 ppc_irq := false }
      else s) := by
    unfold via2_consistent at h ⊢
    split
    · simpa [Nat.testBit_or, Nat.testBit_and, h3f, h40] using h
    · exact h
  have key : ∀ t : State, via2_consistent t → via2_consistent
      (if data &&& 0xc0 = 0xc0 ∧ t.m_irq_control &&& 0x80 ≠ 0 then
        { t with m_irq_control := t.m_irq_control &&& 0x7f, ppc_irq := false }
      else t) := by
    intro t ht
    unfold via2_consistent at ht ⊢
    split
    · simpa [Nat.testBit_and, h7f] using ht
    · exact ht
  exact key _ h1

theorem consistent_hmc_w (offset data : Nat) (s : State) (h : via2_consistent s) :
    via2_consistent (hmc_w offset data s) := by
  unfold hmc_w
  split
  · exact h
  · simp only []
    split <;> exact h

theorem consistent_driver_reset (s : State) : via2_consistent (driver_reset s) := by
  simp [via2_consistent, driver_reset]

theorem consistent_scsi_event_in_step (e : ScsiEvent) (s : State) (h : via2_consistent s) :
    via2_consistent (scsi_event_in_step e s) := by
  cases e with
  | drq state => exact consistent_via2_irq_main_set _ _ _ h
  | irq state => exact consistent_via2_irq_main_set _ _ _ h

theorem consistent_scsi_events (evs : List ScsiEvent) (s : State) (h : via2_consistent s) :
    via2_consistent (evs.foldl (fun st e => scsi_event_in_step e st) s) := by
  induction evs generalizing s with
  | nil => exact h
  | cons e evs ih => exact ih _ (consistent_scsi_event_in_step e s h)

theorem consistent_dma_scsi_a_loop (dev : List (List ScsiEvent)) (s : State)
    (h : via2_consistent s) : via2_consistent (dma_scsi_a_loop dev s) := by
  induction dev generalizing s with
  | nil => exact h
  | cons evs dev ih =>
    unfold dma_scsi_a_loop
    split
    · exact ih _ (consistent_scsi_events evs s h)
    · exact h

theorem consistent_dma_scsi_a_step (dev : List (List ScsiEvent)) (s : State)
    (h : via2_consistent s) : via2_consistent (dma_scsi_a_step dev s) := by
  have h1 : via2_consistent { s with m_dma_scsi_a_in_step := true } := h
  exact consistent_dma_scsi_a_loop dev _ h1

theorem consistent_scsi_drq (state : Int) (dev : List (List ScsiEvent)) (s : State)
    (h : via2_consistent s) : via2_consistent (scsi_drq state dev s) := by
  have key : ∀ t : State, via2_consistent t → via2_consistent
      (if t.m_dma_scsi_a_ctrl &&& 0x02 ≠ 0 ∧ t.m_via2_ifr &&& 0x01 ≠ 0 ∧
          t.m_dma_scsi_a_in_step = false then dma_scsi_a_step dev t else t) := by
    intro t ht
    split
    · exact consistent_dma_scsi_a_step dev t ht
    · exact ht
  exact key _ (consistent_via2_irq_main_set 0x01 state s h)

theorem consistent_scsi_call (c : ScsiCall) (s : State) (h : via2_consistent s) :
    via2_consistent (scsi_call c s) := by
  cases c with
  | drq state dev => exact consistent_scsi_drq state dev s h
  | irq state => exact consistent_via2_irq_main_set _ _ _ h

theorem consistent_scsi_calls (calls : List ScsiCall) (s : State) (h : via2_consistent s) :
    via2_consistent (calls.foldl (fun st c => scsi_call c st) s) := by
  induction calls generalizing s with
  | nil => exact h
  | cons c calls ih => exact ih _ (consistent_scsi_call c s h)

theorem consistent_dma_scsi_a_flush (flush : List (List ScsiCall)) (s : State)
    (h : via2_consistent s) : via2_consistent (dma_scsi_a_flush flush s) := by
  induction flush generalizing s with
  | nil => exact h
  | cons calls flush ih =>
    unfold dma_scsi_a_flush
    split
    · exact ih _ (consistent_scsi_calls calls s h)
    · exact h

theorem consistent_dma_scsi_a_ctrl_w (data : Nat) (flush : List (List ScsiCall))
    (dev : List (List ScsiEvent)) (s : State) (h : via2_consistent s) :
    via2_consistent (dma_scsi_a_ctrl_w data flush dev s) := by
  have h2 : ∀ ctrl, via2_consistent
      (if data &&& 0x10 ≠ 0 then dma_scsi_a_flush flush { s with m_dma_scsi_a_ctrl := ctrl }
        else { s with m_dma_scsi_a_ctrl := ctrl }) := by
    intro ctrl
    split
    · exact consistent_dma_scsi_a_flush flush _ h
    · exact h
  have key : ∀ t : State, via2_consistent t → via2_consistent
      (if t.m_dma_scsi_a_ctrl &&& 0x02 ≠ 0 ∧ t.m_via2_ifr &&& 0x01 ≠ 0 ∧
          t.m_dma_scsi_a_in_step = false then dma_scsi_a_step dev t else t) := by
    intro t ht
    split
    · exact consistent_dma_scsi_a_step dev t ht
    · exact ht
  exact key _ (h2 _)

theorem consistent_step (s : State) (op : Op) (h : via2_consistent s) :
    via2_consistent (step s op) := by
  cases op with
  | driver_reset => exact consistent_driver_reset s
  | via1_irq state => exact consistent_via1_irq state s h
  | sound_irq state => exact consistent_via2_irq_main_set _ _ _ h
  | vblank_irq state => exact consistent_via2_irq_slot_set _ _ _ h
  | slot2_irq state => exact consistent_via2_irq_slot_set _ _ _ h
  | slot1_irq state => exact consistent_via2_irq_slot_set _ _ _ h
  | scsi_irq state => exact consistent_via2_irq_main_set _ _ _ h
  | scsi_drq state dev => exact consistent_scsi_drq state dev s h
  | fdc_irq state => exact consistent_via2_irq_main_set _ _ _ h
  | irq_control_w data => exact consistent_irq_control_w data s h
  | via2_ier_w data => exact consistent_via2_ier_w data s
  | via2_sier_w data => exact consistent_via2_sier_w data s h
  | via2_sifr_w data => exact consistent_via2_sifr_w data s h
  | dma_scsi_a_ctrl_w data flush dev => exact consistent_dma_scsi_a_ctrl_w data flush dev s h
  | hmc_w offset data => exact consistent_hmc_w offset data s h

theorem consistent_run (ops : List Op) (s : State) (h : via2_consistent s) :
    via2_consistent (run s ops) := by
  induction ops generalizing s with
  | nil => exact h
  | cons op ops ih => exact ih (step s op) (consistent_step s op h)

/-- C23, VIA2 summary bit: in every state reached from `driver_reset` through
the interrupt line handlers (with any line state, 0 and 1 among them) and the
register writes, bit 1 of the main IRQ control register is set if and only if
`m_via2_ifr & m_via2_ier` is nonzero. -/
theorem via2_summary_bit (s0 : State) (ops : List Op) :
    ((run (driver_reset s0) ops).m_irq_control.testBit 1 = true ↔
      (run (driver_reset s0) ops).m_via2_ifr &&& (run (driver_reset s0) ops).m_via2_ier ≠ 0) ∧
    ((irq_control_r (run (driver_reset s0) ops)) &&& 0x02 ≠ 0 ↔
      (run (driver_reset s0) ops).m_via2_ifr &&& (run (driver_reset s0) ops).m_via2_ier ≠ 0) := by
  have h := consistent_run ops (driver_reset s0) (consistent_driver_reset s0)
  unfold via2_consistent at h
  constructor
  · rw [h]
    simp
  · have h2 := and_two_ne_zero (run (driver_reset s0) ops).m_irq_control
    rw [h] at h2
    have h3 : (run (driver_reset s0) ops).m_irq_control &&& 2 = 0 ↔
        (run (driver_reset s0) ops).m_via2_ifr &&& (run (driver_reset s0) ops).m_via2_ier = 0 := by
      simpa using h2
    simpa [irq_control_r] using not_congr h3

end Macpdm

namespace Chessmate

/-! ## Theorems on the Chessmate multiplexed input -/

theorem testBit_compl_byte (x k : Nat) (hk : k < 8) :
    ((x % 256) ^^^ 0xff).testBit k = !x.testBit k := by
  have h256 : (256 : Nat) = 2 ^ 8 := by decide
  have hff : (0xff : Nat) = 2 ^ 8 - 1 := by decide
  rw [Nat.testBit_xor, h256, Nat.testBit_mod_two_pow, hff, Nat.testBit_two_pow_sub_one]
  simp [hk]

/-- C21, multiplexed input: `input_r` returns 0xFF whenever the input mux is not
4 or 5; when the mux is 4 + i (i = 0 or 1) it returns the 8-bit complement of
IN.i OR IN.(i+2), a missing IN.(i+2) reading as 0, so that each bit of the result
is 0 exactly when the button of IN.i or the button of IN.(i+2) on that line is
down: the two cannot be told apart. -/
theorem input_r_mux (inputs : Nat → Option Nat) (s : State) :
    (s.m_inp_mux ≠ 4 → s.m_inp_mux ≠ 5 → input_r inputs s = some 0xff) ∧
    (∀ i a, i < 2 → s.m_inp_mux = 4 + i → inputs i = some a →
      input_r inputs s = some (((a ||| (inputs (i + 2)).getD 0) % 256) ^^^ 0xff) ∧
      ∀ k, k < 8 →
        ((((a ||| (inputs (i + 2)).getD 0) % 256) ^^^ 0xff).testBit k
          = !(a.testBit k || ((inputs (i + 2)).getD 0).testBit k))) := by
  constructor
  · intro h4 h5
    simp [input_r, h4, h5]
  · intro i a hi hmux ha
    constructor
    · have hor : i ||| 2 = i + 2 := by interval_cases i <;> rfl
      have hm : s.m_inp_mux = 4 ∨ s.m_inp_mux = 5 := by omega
      have hsub : s.m_inp_mux - 4 = i := by omega
      simp only [input_r, hm, if_true, hsub, ha, hor]
    · intro k hk
      rw [testBit_compl_byte _ k hk, Nat.testBit_or]

theorem input_r_mux_witness :
    input_r (fun n => if n = 0 then some 0x21 else if n = 2 then some 0x02 else none)
      { m_inp_mux := 4, m_7seg_data := 0, m_led_data := 0 }
      = some (((0x21 ||| ((fun n => if n = 0 then some 0x21 else if n = 2 then some 0x02
          else none) (0 + 2)).getD 0) % 256) ^^^ 0xff) :=
  ((input_r_mux (fun n => if n = 0 then some 0x21 else if n = 2 then some 0x02 else none)
    { m_inp_mux := 4, m_7seg_data := 0, m_led_data := 0 }).2 0 0x21 (by decide) (by decide)
    (by decide)).1

end Chessmate

namespace Macpdm

/-! ## Theorems on the HMC serial register -/

theorem and_128_ne_zero (data : Nat) : (data &&& 0x80 ≠ 0) ↔ data.testBit 7 = true := by
  have h : (0x80 : Nat) = 2 ^ 7 := by decide
  rw [h, Nat.and_two_pow]
  cases data.testBit 7 <;> simp

theorem one_shl_mod (k : Nat) (hk : k < 64) : (1 <<< k) % 2 ^ 64 = 2 ^ k := by
  rw [Nat.shiftLeft_eq, Nat.one_mul]
  exact Nat.mod_eq_of_lt (Nat.pow_lt_pow_right (by decide) hk)

/-- The buffer after one data write at bit position k < 64. -/
theorem hmc_buffer_next (data buf k : Nat) (hk : k < 64) (hbuf : buf < 2 ^ 64) :
    (if data &&& 0x80 ≠ 0 then buf ||| (1 <<< k) % 2 ^ 64
      else buf &&& ((1 <<< k) % 2 ^ 64 ^^^ (2 ^ 64 - 1))) < 2 ^ 64 ∧
    ∀ j, (if data &&& 0x80 ≠ 0 then buf ||| (1 <<< k) % 2 ^ 64
      else buf &&& ((1 <<< k) % 2 ^ 64 ^^^ (2 ^ 64 - 1))).testBit j
        = if j = k then data.testBit 7 else buf.testBit j := by
  rw [one_shl_mod k hk]
  have hpow : 2 ^ k < 2 ^ 64 := Nat.pow_lt_pow_right (by decide) hk
  by_cases h7 : data.testBit 7 = true
  · have hd : data &&& 0x80 ≠ 0 := (and_128_ne_zero data).mpr h7
    simp only [hd, if_true, ne_eq, not_false_eq_true]
    refine ⟨Nat.or_lt_two_pow hbuf hpow, ?_⟩
    intro j
    rw [Nat.testBit_or, Nat.testBit_two_pow]
    by_cases hj : j = k
    · simp [hj, h7]
    · have : ¬ k = j := fun h => hj h.symm
      simp [hj, this]
  · have hd : ¬ (data &&& 0x80 ≠ 0) := fun h => h7 ((and_128_ne_zero data).mp h)
    have h7f : data.testBit 7 = false := by simpa using h7
    simp only [hd, if_false]
    refine ⟨Nat.lt_of_le_of_lt Nat.and_le_left hbuf, ?_⟩
    intro j
    rw [Nat.testBit_and, Nat.testBit_xor, Nat.testBit_two_pow, Nat.testBit_two_pow_sub_one]
    by_cases hj : j = k
    · subst hj
      simp [hk, h7f]
    · have hne : ¬ k = j := fun h => hj h.symm
      by_cases h64 : j < 64
      · simp [hj, hne, h64]
      · have hb : buf.testBit j = false :=
          Nat.testBit_eq_false_of_lt
            (Nat.lt_of_lt_of_le hbuf (Nat.pow_le_pow_right (by decide) (by omega)))
        simp [hj, hb]

/-- One data write (offset bit 3 clear) at bit position k < 64: the counter goes
to k + 1, bit k of the buffer becomes data bit 7, and the register is loaded
from the buffer, less bits 0 and 1, exactly when the counter reaches 35. -/
theorem hmc_w_data (offset data : Nat) (s : State) (ho : offset &&& 8 = 0)
    (hk : s.m_hmc_bit < 64) (hbuf : s.m_hmc_buffer < 2 ^ 64) :
    (hmc_w offset data s).m_hmc_bit = s.m_hmc_bit + 1 ∧
    (hmc_w offset data s).m_hmc_buffer < 2 ^ 64 ∧
    (∀ j, (hmc_w offset data s).m_hmc_buffer.testBit j
      = if j = s.m_hmc_bit then data.testBit 7 else s.m_hmc_buffer.testBit j) ∧
    (hmc_w offset data s).m_hmc_reg =
      (if s.m_hmc_bit + 1 = 35
        then (hmc_w offset data s).m_hmc_buffer &&& (3 ^^^ (2 ^ 64 - 1))
        else s.m_hmc_reg) := by
  have hB := hmc_buffer_next data s.m_hmc_buffer s.m_hmc_bit hk hbuf
  have hbit : (s.m_hmc_bit + 1) % 256 = s.m_hmc_bit + 1 := Nat.mod_eq_of_lt (by omega)
  simp only [hmc_w, ho, ne_eq, not_true_eq_false, if_false, hbit]
  by_cases h35 : s.m_hmc_bit + 1 = 35
  · simp only [h35, if_true]
    exact ⟨trivial, hB.1, hB.2, trivial⟩
  · simp only [h35, if_false]
    exact ⟨trivial, hB.1, hB.2, trivial⟩

/-- The register changes only on a data write that brings the counter to 35. -/
theorem hmc_reg_changes_only_at_35 (offset data : Nat) (s : State)
    (h : (hmc_w offset data s).m_hmc_reg ≠ s.m_hmc_reg) :
    offset &&& 8 = 0 ∧ (hmc_w offset data s).m_hmc_bit = 35 := by
  by_cases ho : offset &&& 8 = 0
  · refine ⟨ho, ?_⟩
    by_cases h35 : (s.m_hmc_bit + 1) % 256 = 35
    · simp [hmc_w, ho, h35]
    · exfalso
      apply h
      simp [hmc_w, ho, h35]
  · exfalso
    apply h
    simp [hmc_w, ho]

theorem hmc_writes_append (s : State) (ws : List (Nat × Nat)) (w : Nat × Nat) :
    hmc_writes s (ws ++ [w]) = hmc_w w.1 w.2 (hmc_writes s ws) := by
  simp [hmc_writes, List.foldl_append]

/-- After n ≤ 35 data writes from counter 0: the counter is n, the low n bits of
the buffer are the data bits 7 in order, the other bits are as before, and the
register is the buffer less bits 0 and 1 once n = 35, untouched before. -/
theorem hmc_writes_state (s : State) (ws : List (Nat × Nat)) (h0 : s.m_hmc_bit = 0)
    (hbuf : s.m_hmc_buffer < 2 ^ 64) (hws : ∀ w ∈ ws, w.1 &&& 8 = 0)
    (hlen : ws.length ≤ 35) :
    (hmc_writes s ws).m_hmc_bit = ws.length ∧
    (hmc_writes s ws).m_hmc_buffer < 2 ^ 64 ∧
    (∀ j, (hmc_writes s ws).m_hmc_buffer.testBit j
      = if j < ws.length then (ws.getD j (0, 0)).2.testBit 7 else s.m_hmc_buffer.testBit j) ∧
    (hmc_writes s ws).m_hmc_reg =
      (if ws.length = 35 then (hmc_writes s ws).m_hmc_buffer &&& (3 ^^^ (2 ^ 64 - 1))
        else s.m_hmc_reg) := by
  induction ws using List.reverseRecOn with
  | nil =>
    refine ⟨by simpa [hmc_writes] using h0, by simpa [hmc_writes] using hbuf, ?_, ?_⟩
    · intro j
      simp [hmc_writes]
    · simp [hmc_writes]
  | append_singleton ws w ih =>
    have hlen2 : ws.length + 1 ≤ 35 := by simpa using hlen
    have hih := ih (fun x hx => hws x (List.mem_append_left _ hx)) (by omega)
    have hw : w.1 &&& 8 = 0 := hws w (by simp)
    have hst := hmc_w_data w.1 w.2 (hmc_writes s ws) hw (by rw [hih.1]; omega) hih.2.1
    rw [hmc_writes_append]
    refine ⟨?_, hst.2.1, ?_, ?_⟩
    · rw [hst.1, hih.1]
      simp
    · intro j
      rw [hst.2.2.1 j, hih.1, hih.2.2.1 j]
      by_cases hj : j = ws.length
      · subst hj
        simp [List.getD_eq_getElem?_getD]
      · by_cases hlt : j < ws.length
        · have h1 : j < ws.length + 1 := by omega
          simp [hj, hlt, h1, List.getD_eq_getElem?_getD, List.getElem?_append_left hlt]
        · have h1 : ¬ j < ws.length + 1 := by omega
          simp [hj, hlt, h1]
    · rw [hst.2.2.2, hih.1, hih.2.2.2]
      have hne : ws.length ≠ 35 := by omega
      simp [hne]

/-- A sum of distinct powers of two below 2^n has exactly those binary digits. -/
theorem testBit_sum_bits (f : Nat → Bool) (n : Nat) :
    Finset.sum (Finset.range n) (fun i => if f i = true then 2 ^ i else 0) < 2 ^ n ∧
    ∀ j, (Finset.sum (Finset.range n) (fun i => if f i = true then 2 ^ i else 0)).testBit j
      = (decide (j < n) && f j) := by
  induction n with
  | zero => simp
  | succ n ih =>
    rw [Finset.sum_range_succ]
    have hterm : (if f n = true then 2 ^ n else 0) = 2 ^ n * (f n).toNat := by
      cases f n <;> simp
    rw [hterm, Nat.add_comm]
    constructor
    · have h1 : (f n).toNat ≤ 1 := by cases f n <;> simp
      have h2 : 2 ^ n * (f n).toNat ≤ 2 ^ n := by
        calc 2 ^ n * (f n).toNat ≤ 2 ^ n * 1 := Nat.mul_le_mul_left _ h1
          _ = 2 ^ n := Nat.mul_one _
      have h3 : 2 ^ (n + 1) = 2 ^ n + 2 ^ n := by rw [Nat.pow_succ]; omega
      omega
    · intro j
      rw [Nat.testBit_mul_pow_two_add _ ih.1, ih.2 j]
      by_cases hj : j < n
      · have : j < n + 1 := by omega
        simp [hj, this]
      · by_cases hjn : j = n
        · subst hjn
          cases f j <;> simp
        · have h1 : ¬ j < n + 1 := by omega
          have h2 : j - n ≠ 0 := by omega
          have h3 : (f n).toNat.testBit (j - n) = false := by
            cases f n
            · simp
            · obtain ⟨m, hm⟩ : ∃ m, j - n = m + 1 := ⟨j - n - 1, by omega⟩
              rw [hm]
              simp [Nat.testBit_succ]
          simp [hj, h1, h3]

theorem sum_Ico_bits (b : Nat → Bool) :
    Finset.sum (Finset.Ico 2 35) (fun i => if b i = true then 2 ^ i else 0) =
      Finset.sum (Finset.range 35)
        (fun i => if (decide (2 ≤ i) && b i) = true then 2 ^ i else 0) := by
  have hfilter : Finset.Ico 2 35 = (Finset.range 35).filter (fun i => 2 ≤ i) := by
    ext i
    simp [Finset.mem_Ico, Finset.mem_filter]
    omega
  rw [hfilter, Finset.sum_filter]
  apply Finset.sum_congr rfl
  intro i _
  by_cases h2 : 2 ≤ i <;> simp [h2]

theorem hmc_w_reset_counter (offset data : Nat) (s : State) (ho : offset &&& 8 ≠ 0) :
    hmc_w offset data s = { s with m_hmc_bit := 0 } := by
  simp [hmc_w, ho]

/-- C22, HMC serial register load: after an `hmc_w` with offset bit 3 set and
then 35 `hmc_w` calls with offset bit 3 clear whose data bits 7 are b0..b34,
`m_hmc_reg` is the sum of b_i * 2^i for i in 2..34 plus the bits of the buffer
above bit 34, bits 0 and 1 being 0; the register keeps its value through the
counter reset and the first 34 of the writes, and any single `hmc_w` changes it
only when it brings the counter to exactly 35. -/
theorem hmc_serial_load (s : State) (offset0 data0 : Nat) (ws : List (Nat × Nat))
    (hbuf : s.m_hmc_buffer < 2 ^ 64) (ho : offset0 &&& 8 ≠ 0)
    (hws : ∀ w ∈ ws, w.1 &&& 8 = 0) (hlen : ws.length = 35) :
    (hmc_writes (hmc_w offset0 data0 s) ws).m_hmc_reg =
      Finset.sum (Finset.Ico 2 35)
          (fun i => if (ws.getD i (0, 0)).2.testBit 7 = true then 2 ^ i else 0)
        + s.m_hmc_buffer / 2 ^ 35 * 2 ^ 35 ∧
    (∀ j, (hmc_writes (hmc_w offset0 data0 s) ws).m_hmc_reg.testBit j =
      if j < 2 then false
      else if j < 35 then (ws.getD j (0, 0)).2.testBit 7
      else s.m_hmc_buffer.testBit j) ∧
    (hmc_w offset0 data0 s).m_hmc_reg = s.m_hmc_reg ∧
    (∀ n, n < 35 → (hmc_writes (hmc_w offset0 data0 s) (ws.take n)).m_hmc_reg = s.m_hmc_reg) ∧
    (∀ (t : State) (offset data : Nat), (hmc_w offset data t).m_hmc_reg ≠ t.m_hmc_reg →
      offset &&& 8 = 0 ∧ (hmc_w offset data t).m_hmc_bit = 35) := by
  have hs1 := hmc_w_reset_counter offset0 data0 s ho
  have hbits : ∀ j, (hmc_writes (hmc_w offset0 data0 s) ws).m_hmc_reg.testBit j =
      if j < 2 then false
      else if j < 35 then (ws.getD j (0, 0)).2.testBit 7
      else s.m_hmc_buffer.testBit j := by
    intro j
    have hst := hmc_writes_state (hmc_w offset0 data0 s) ws (by rw [hs1]) (by rw [hs1]; exact hbuf)
      hws (by omega)
    have h3 : (3 : Nat) = 2 ^ 2 - 1 := by decide
    rw [hst.2.2.2, if_pos hlen, Nat.testBit_and, hst.2.2.1 j, Nat.testBit_xor, h3,
      Nat.testBit_two_pow_sub_one, Nat.testBit_two_pow_sub_one, hlen, hs1]
    by_cases h2 : j < 2
    · have h64 : j < 64 := by omega
      simp [h2, h64]
    · by_cases h35 : j < 35
      · have h64 : j < 64 := by omega
        simp [h2, h35, h64]
      · by_cases h64 : j < 64
        · simp [h2, h35, h64]
        · have hb : s.m_hmc_buffer.testBit j = false :=
            Nat.testBit_eq_false_of_lt
              (Nat.lt_of_lt_of_le hbuf (Nat.pow_le_pow_right (by decide) (by omega)))
          simp [h2, h35, h64, hb]
  refine ⟨?_, hbits, by rw [hs1], ?_, fun t offset data => hmc_reg_changes_only_at_35 offset data t⟩
  · apply Nat.eq_of_testBit_eq
    intro j
    have hsum := testBit_sum_bits (fun i => decide (2 ≤ i) && (ws.getD i (0, 0)).2.testBit 7) 35
    rw [hbits j, sum_Ico_bits, Nat.add_comm, Nat.mul_comm,
      Nat.testBit_mul_pow_two_add _ hsum.1, hsum.2 j]
    by_cases h2 : j < 2
    · have h35 : j < 35 := by omega
      have : ¬ 2 ≤ j := by omega
      simp [h2, h35, this]
    · by_cases h35 : j < 35
      · have : 2 ≤ j := by omega
        simp [h2, h35, this]
      · have hj : 35 + (j - 35) = j := by omega
        rw [← Nat.shiftRight_eq_div_pow, Nat.testBit_shiftRight, hj]
        simp [h2, h35]
  · intro n hn
    have hst := hmc_writes_state (hmc_w offset0 data0 s) (ws.take n) (by rw [hs1])
      (by rw [hs1]; exact hbuf) (fun w hw => hws w (List.mem_of_mem_take hw))
      (by rw [List.length_take]; omega)
    have hl : (ws.take n).length ≠ 35 := by rw [List.length_take]; omega
    rw [hst.2.2.2, if_neg hl, hs1]

theorem hmc_serial_load_witness :
    (hmc_writes (hmc_w 8 0 power_on) (List.replicate 35 (0, 0x80))).m_hmc_reg =
      Finset.sum (Finset.Ico 2 35)
          (fun i => if ((List.replicate 35 (0, 0x80)).getD i (0, 0)).2.testBit 7 = true
            then 2 ^ i else 0)
        + power_on.m_hmc_buffer / 2 ^ 35 * 2 ^ 35 :=
  (hmc_serial_load power_on 8 0 (List.replicate 35 (0, 0x80)) (by decide) (by decide)
    (by simp) (by simp)).1

set_option maxRecDepth 16000 in
/-- The load on concrete inputs: 35 writes of a set bit 7 give 0x7fffffffc, and a
pending enabled SCSI interrupt sets bit 1 (and the summary bit 7) of the main
IRQ control register. -/
theorem macpdm_examples :
    (hmc_writes (hmc_w 8 0 power_on) (List.replicate 35 (0, 0x80))).m_hmc_reg = 0x7fffffffc ∧
    (run (driver_reset power_on) [Op.via2_ier_w 0x88, Op.scsi_irq 1]).m_irq_control = 0x82 ∧
    (run (driver_reset power_on) [Op.via2_ier_w 0x88, Op.scsi_irq 1, Op.scsi_irq 0]).m_irq_control
      = 0x00 := by
  refine ⟨?_, ?_, ?_⟩
  · decide
  · decide
  · decide

end Macpdm
